import Mathlib

/-!
Verification of the MASTERCELL NGX case-based message composition engine
(`eeprom_cases.c` / `eeprom_cases.h`).

Shallow embedding conventions:
* machine bytes/words are `Nat` with masking (`&&& 0xFF`, `% 256`) where the C
  code relies on 8-bit wrap;
* the EEPROM, the input scanner, the ignition flag and the inLINK message
  store are external collaborators, modelled as an `Env` record of pure
  functions;
* the static array `active_cases[MAX_ACTIVE_CASES]` plus `active_case_count`
  is modelled as a 64-element list plus a count.  The slots at positions
  `count ..` keep their previous contents, exactly as the C array does (this
  matters for the legacy IN23/IN24 skip-forward loop in OFF-case loading,
  which inspects slots beyond the current logical end);
* the diagnostic counters (`eeprom_read_count`, `bounds_errors`) are
  observability-only and are not modelled;
* fallible operations return `Option`.
-/

namespace Mastercell

/-! ## Constants from eeprom_cases.h -/

def TOTAL_INPUTS : Nat := 44
def MAX_ACTIVE_CASES : Nat := 64
def MAX_ON_CASES_PER_INPUT : Nat := 8
def MAX_OFF_CASES_PER_INPUT : Nat := 2
def MAX_UNIQUE_MESSAGES : Nat := 24
def MAX_INLINK_MESSAGES : Nat := 16
def CASE_SIZE : Nat := 32
def EEPROM_CASES_START : Nat := 0x0022
def CASE_OFFSET_CONFIG : Nat := 4
def CASE_OFFSET_PATTERN_TIMING : Nat := 7
def CONFIG_CAN_BE_OVERRIDDEN_MASK : Nat := 0x0C
def CONFIG_CAN_BE_OVERRIDDEN_VALUE : Nat := 0x04
def PATTERN_STATE_INACTIVE : Nat := 0
def PATTERN_STATE_ON_PHASE : Nat := 1
def PATTERN_STATE_OFF_PHASE : Nat := 2

/-! ## Case-count and offset tables from eeprom_cases.c -/

def input_on_case_count : List Nat :=
  [4, 2, 4, 4, 2, 6, 1, 6,
   1, 2, 2, 2, 2, 2, 6, 2,
   2, 6, 2, 2, 2, 2, 6, 6,
   2, 2, 2, 2, 2, 2, 2, 2,
   1, 1, 1, 1, 1, 1,
   2, 2, 1, 1, 1, 1]

def input_off_case_count : List Nat :=
  [2, 2, 0, 0, 0, 0, 0, 0,
   0, 0, 0, 0, 0, 0, 0, 0,
   0, 0, 0, 0, 0, 0, 0, 0,
   2, 2, 2, 2, 2, 2, 2, 2,
   0, 0, 0, 0, 0, 0,
   0, 0, 0, 0, 0, 0]

def on_case_offsets : List Nat :=
  [0, 128, 192, 320, 448, 512, 704, 736,
   928, 960, 1024, 1088, 1152, 1216, 1280, 1472,
   1536, 1600, 1792, 1856, 1920, 1984, 2048, 2240,
   2432, 2496, 2560, 2624, 2688, 2752, 2816, 2880,
   2944, 2976, 3008, 3040, 3072, 3104, 3136, 3200,
   3264, 3296, 3328, 3360]

def off_case_offsets : List Nat :=
  [0, 64, 0xFFFF, 0xFFFF, 0xFFFF, 0xFFFF, 0xFFFF, 0xFFFF,
   0xFFFF, 0xFFFF, 0xFFFF, 0xFFFF, 0xFFFF, 0xFFFF, 0xFFFF, 0xFFFF,
   0xFFFF, 0xFFFF, 0xFFFF, 0xFFFF, 0xFFFF, 0xFFFF, 0xFFFF, 0xFFFF,
   160, 224, 288, 352, 416, 480, 544, 608,
   0xFFFF, 0xFFFF, 0xFFFF, 0xFFFF, 0xFFFF, 0xFFFF, 0xFFFF, 0xFFFF,
   0xFFFF, 0xFFFF, 0xFFFF, 0xFFFF]

/-! ## Data model -/

/-- Decoded 32-byte case record (struct `CaseData`). -/
structure CaseData where
  priority : Nat
  pgn : Nat
  source_addr : Nat
  data : List Nat
  pattern_on_time : Nat
  pattern_off_time : Nat
  must_be_on : List Nat
  must_be_off : List Nat
  valid : Bool
  can_be_overridden : Bool
deriving DecidableEq, Repr, Inhabited

/-- One active-list slot (struct `ActiveCase`). -/
structure ActiveCase where
  input_num : Nat
  case_num : Nat
  is_on_case : Bool
  needs_removal_after_send : Bool
  case_data : CaseData
deriving DecidableEq, Repr, Inhabited

/-- Per-input flasher state machine (struct `PatternTimer`). -/
structure PatternTimer where
  state : Nat
  timer : Nat
  on_time : Nat
  off_time : Nat
  has_pattern : Bool
deriving DecidableEq, Repr, Inhabited

/-- Aggregation output bucket (struct `AggregatedMessage`). -/
structure AggregatedMessage where
  priority : Nat
  pgn : Nat
  source_addr : Nat
  data : List Nat
  valid : Bool
  has_pattern : Bool
  data_changed : Bool
deriving DecidableEq, Repr, Inhabited

/-- Externally relayed message slot (struct `InLinkMessage`); an empty slot
(`NULL` from `InLink_GetMessage`) is `none` on the environment side. -/
structure InLinkMessage where
  pgn : Nat
  source_addr : Nat
  data : List Nat
  valid : Bool
deriving DecidableEq, Repr, Inhabited

/-- External collaborators: EEPROM byte content, input scanner state,
global ignition flag, relayed-message slots. -/
structure Env where
  rom : Nat → Nat
  inputs : Nat → Bool
  ignition : Bool
  inlink : Nat → Option InLinkMessage

/-- Engine state: the 64-slot `active_cases` array together with
`active_case_count`, and the per-input pattern timer bank.  The slots at
positions `count ..` model the stale contents the C array keeps there. -/
structure EngineState where
  arr : List ActiveCase
  count : Nat
  timers : Nat → PatternTimer

/-- The live entries: `active_cases[0 .. active_case_count)`. -/
def live (s : EngineState) : List ActiveCase := s.arr.take s.count

/-- Well-formedness of the array model: the backing array has exactly
`MAX_ACTIVE_CASES` slots and the count never exceeds it. -/
def WF (s : EngineState) : Prop :=
  s.arr.length = MAX_ACTIVE_CASES ∧ s.count ≤ MAX_ACTIVE_CASES

/-! ## Byte helpers (uint8 arithmetic on `Nat`) -/

def zeros8 : List Nat := List.replicate 8 0

/-- Read 8 bytes through C-style indexing (`a[k]` for `k < 8`). -/
def copy8 (a : List Nat) : List Nat := (List.range 8).map (fun k => a.getD k 0)

/-- Bytewise OR of two 8-byte buffers. -/
def or8 (a b : List Nat) : List Nat :=
  (List.range 8).map (fun k => a.getD k 0 ||| b.getD k 0)

/-- `a & ~b` on uint8: complement is taken in 8 bits. -/
def bandNot8 (a b : Nat) : Nat := a &&& (0xFF ^^^ (b &&& 0xFF))

/-! ## Case store: address resolution and record decode -/

/-- `EEPROM_GetCaseAddress`: the sentinel return `0xFFFF` is `none`. -/
def EEPROM_GetCaseAddress (input_num case_num : Nat) (is_on_case : Bool) :
    Option Nat :=
  if TOTAL_INPUTS ≤ input_num then none
  else
    let address? : Option Nat :=
      if is_on_case then
        if input_on_case_count.getD input_num 0 ≤ case_num then none
        else some (EEPROM_CASES_START + on_case_offsets.getD input_num 0 +
                   case_num * CASE_SIZE)
      else
        if input_off_case_count.getD input_num 0 ≤ case_num then none
        else if off_case_offsets.getD input_num 0 = 0xFFFF then none
        else some (0x0D62 + off_case_offsets.getD input_num 0 +
                   case_num * CASE_SIZE)
    match address? with
    | none => none
    | some address =>
      if 0x1000 ≤ address then none
      else if address < EEPROM_CASES_START ∧ address < 0x0D62 then none
      else if address % 2 = 1 then none
      else some address

/-- `ReadEEPROMByte`: out-of-range reads return `0xFF`; in-range reads return
the EEPROM byte (the word-read plus odd/even extraction in the C code nets
out to the byte at `byte_address`). -/
def ReadEEPROMByte (rom : Nat → Nat) (byte_address : Nat) : Nat :=
  if 0x1000 ≤ byte_address then 0xFF else rom byte_address % 256

/-- `EEPROM_ReadCase`: decode the 32-byte record at `address`; `none` covers
both the error returns and the all-ones "blank case" return. -/
def EEPROM_ReadCase (rom : Nat → Nat) (address : Nat) : Option CaseData :=
  if 0x1000 ≤ address then none
  else if address % 2 = 1 then none
  else if address < EEPROM_CASES_START ∧ address < 0x0D62 then none
  else
    let priority := ReadEEPROMByte rom (address + 0)
    let pgn_high := ReadEEPROMByte rom (address + 1)
    let pgn_low := ReadEEPROMByte rom (address + 2)
    let source_addr := ReadEEPROMByte rom (address + 3)
    if priority = 0xFF ∧ pgn_high = 0xFF ∧ pgn_low = 0xFF ∧ source_addr = 0xFF
    then none
    else
      let config_byte := ReadEEPROMByte rom (address + CASE_OFFSET_CONFIG)
      let pattern_byte := ReadEEPROMByte rom (address + CASE_OFFSET_PATTERN_TIMING)
      some
        { priority := priority &&& 0x07
          pgn := pgn_high * 256 + pgn_low
          source_addr := source_addr
          data := (List.range 8).map (fun i => ReadEEPROMByte rom (address + 24 + i))
          pattern_on_time := (pattern_byte >>> 4) &&& 0x0F
          pattern_off_time := pattern_byte &&& 0x0F
          must_be_on := (List.range 8).map (fun i => ReadEEPROMByte rom (address + 8 + i))
          must_be_off := (List.range 8).map (fun i => ReadEEPROMByte rom (address + 16 + i))
          valid := true
          can_be_overridden :=
            decide (config_byte &&& CONFIG_CAN_BE_OVERRIDDEN_MASK =
                    CONFIG_CAN_BE_OVERRIDDEN_VALUE) }

/-! ## Pattern timer bank -/

/-- One iteration of the loop body of `EEPROM_Pattern_UpdateTimers` for a
single timer: when the countdown already reached zero, toggle the phase and
reload from the new phase's duration; then decrement if nonzero. -/
def tickTimer (t : PatternTimer) : PatternTimer :=
  if t.state = PATTERN_STATE_INACTIVE then t
  else if ¬t.has_pattern then t
  else
    let t1 :=
      if t.timer = 0 then
        if t.state = PATTERN_STATE_ON_PHASE then
          { t with state := PATTERN_STATE_OFF_PHASE, timer := t.off_time }
        else if t.state = PATTERN_STATE_OFF_PHASE then
          { t with state := PATTERN_STATE_ON_PHASE, timer := t.on_time }
        else t
      else t
    if 0 < t1.timer then { t1 with timer := t1.timer - 1 } else t1

/-- `EEPROM_Pattern_UpdateTimers`: tick every input's timer. -/
def EEPROM_Pattern_UpdateTimers (s : EngineState) : EngineState :=
  { s with timers := fun i =>
      if i < TOTAL_INPUTS then tickTimer (s.timers i) else s.timers i }

/-- `EEPROM_Pattern_IsInOnPhase`. -/
def EEPROM_Pattern_IsInOnPhase (s : EngineState) (input_num : Nat) : Bool :=
  if TOTAL_INPUTS ≤ input_num then false
  else if ¬(s.timers input_num).has_pattern then true
  else decide ((s.timers input_num).state = PATTERN_STATE_ON_PHASE)

/-! ## Conditional evaluator -/

/-- `CheckInputConditions`: the early `return 0` exits of the C loop become a
conjunction over all 44 inputs, followed by the two ignition-bit checks.
The security bit (byte 5, bit 4) and bytes 6-7 are not evaluated (TODOs in
the source). -/
def CheckInputConditions (env : Env) (must_be_on must_be_off : List Nat) : Bool :=
  ((List.range TOTAL_INPUTS).all fun input =>
    !(decide (must_be_on.getD (input / 8) 0 &&& (1 <<< (input % 8)) ≠ 0) &&
      !env.inputs input) &&
    !(decide (must_be_off.getD (input / 8) 0 &&& (1 <<< (input % 8)) ≠ 0) &&
      env.inputs input)) &&
  !(decide (must_be_on.getD 5 0 &&& 0x20 ≠ 0) && !env.ignition) &&
  !(decide (must_be_off.getD 5 0 &&& 0x20 ≠ 0) && env.ignition)

/-! ## Active-list primitives -/

/-- Append one entry at `active_cases[active_case_count]`; when the list is
full (the `active_case_count >= MAX_ACTIVE_CASES` guards in the C code) the
insertion is dropped silently. -/
def appendCase (s : EngineState) (e : ActiveCase) : EngineState :=
  if s.count < MAX_ACTIVE_CASES then
    { s with arr := s.arr.set s.count e, count := s.count + 1 }
  else s

/-- The compaction loop shared by all removal sites: keep the entries
satisfying `keep`, writing them to the front; slots past the new count keep
their old contents. -/
def compactRemove (keep : ActiveCase → Bool) (s : EngineState) : EngineState :=
  let kept := (live s).filter keep
  { s with arr := kept ++ s.arr.drop kept.length, count := kept.length }

/-- `EEPROM_RemoveMarkedCases`: drop every one-shot entry. -/
def EEPROM_RemoveMarkedCases (s : EngineState) : EngineState :=
  compactRemove (fun e => !e.needs_removal_after_send) s

/-- `EEPROM_ClearActiveCases` (startup): empty array, count zero. -/
def EEPROM_ClearActiveCases (s : EngineState) : EngineState :=
  { s with arr := List.replicate MAX_ACTIVE_CASES default, count := 0 }

/-! ## Clearing-set capture (`PGN_SA_Pair` lists) -/

/-- Captured `(pgn, source_addr, priority)` triple (struct `PGN_SA_Pair`). -/
structure PGNSA where
  pgn : Nat
  source_addr : Nat
  priority : Nat
deriving DecidableEq, Repr, Inhabited

/-- One iteration of the capture loops: skip pairs already listed, append
new ones while the fixed-size capture buffer has room. -/
def addPair (cap : Nat) (acc : List PGNSA) (pgn sa prio : Nat) : List PGNSA :=
  if acc.any (fun p => p.pgn = pgn ∧ p.source_addr = sa) then acc
  else if acc.length < cap then acc ++ [⟨pgn, sa, prio⟩] else acc

/-- Capture the unique identifier/priority pairs of the entries satisfying
`p`, in list order, into a buffer of capacity `cap`. -/
def capturePairs (cap : Nat) (p : ActiveCase → Bool) (l : List ActiveCase) :
    List PGNSA :=
  l.foldl (fun acc e =>
    if p e then
      addPair cap acc e.case_data.pgn e.case_data.source_addr e.case_data.priority
    else acc) []

/-- All-zero clearing record built from a captured pair.  The C code does not
assign `can_be_overridden` in the clearing branches (the slot keeps its stale
value); the field is irrelevant for an all-zero payload and is modelled as
`false`. -/
def mkClearingCase (p : PGNSA) : CaseData :=
  { priority := p.priority
    pgn := p.pgn
    source_addr := p.source_addr
    data := zeros8
    pattern_on_time := 0
    pattern_off_time := 0
    must_be_on := zeros8
    must_be_off := zeros8
    valid := true
    can_be_overridden := false }

/-- One-shot clearing entry for owning input `inp` at capture index `idx`. -/
def mkClearingEntry (inp idx : Nat) (p : PGNSA) : ActiveCase :=
  { input_num := inp
    case_num := idx
    is_on_case := false
    needs_removal_after_send := true
    case_data := mkClearingCase p }

/-- Insert one clearing entry per captured pair.  The C loop breaks when the
list is full; since `appendCase` is a no-op on a full list and the count never
decreases, folding the guarded append is equivalent. -/
def insertClearings (inp : Nat) (ps : List PGNSA) (s : EngineState) : EngineState :=
  (ps.enum.map (fun ic => mkClearingEntry inp ic.1 ic.2)).foldl appendCase s

/-- Point update of one input's pattern timer. -/
def setTimerAt (s : EngineState) (i : Nat) (t : PatternTimer) : EngineState :=
  { s with timers := fun j => if j = i then t else s.timers j }

/-- Disarm a pattern timer: `state = PATTERN_STATE_INACTIVE`,
`has_pattern = 0`, `timer = 0` (the reload durations are left untouched,
as in the C code). -/
def disarmTimer (t : PatternTimer) : PatternTimer :=
  { t with state := PATTERN_STATE_INACTIVE, timer := 0, has_pattern := false }

/-- Entry belongs to input `i` (deactivation capture also requires an ON
entry). -/
def isFor (i : Nat) (e : ActiveCase) : Bool := e.input_num = i

def isOnFor (i : Nat) (e : ActiveCase) : Bool := e.input_num = i && e.is_on_case

/-- Compaction keep-predicate: entries of other inputs. -/
def keepOther (i : Nat) (e : ActiveCase) : Bool := e.input_num ≠ i

/-! ## Input-transition handler -/

/-- Build an active-list entry from a decoded case. -/
def mkLoadedEntry (inp caseIdx : Nat) (is_on one_shot : Bool) (cd : CaseData) :
    ActiveCase :=
  { input_num := inp
    case_num := caseIdx
    is_on_case := is_on
    needs_removal_after_send := one_shot
    case_data := cd }

/-- Loop body of activation STEP 2: read ON case `caseIdx`, append it, and
record the pattern nibbles when case 0 carries a nonzero pattern.  The
accumulator carries the `(has_pattern, on_time, off_time)` triple. -/
def loadOnCase (env : Env) (inp : Nat)
    (st : EngineState × (Bool × Nat × Nat)) (caseIdx : Nat) :
    EngineState × (Bool × Nat × Nat) :=
  if MAX_ACTIVE_CASES ≤ st.1.count then st
  else
    match EEPROM_GetCaseAddress inp caseIdx true with
    | none => st
    | some addr =>
      match EEPROM_ReadCase env.rom addr with
      | none => st
      | some cd =>
        let pat :=
          if caseIdx = 0 ∧ (cd.pattern_on_time ≠ 0 ∨ cd.pattern_off_time ≠ 0)
          then (true, cd.pattern_on_time, cd.pattern_off_time)
          else st.2
        (appendCase st.1 (mkLoadedEntry inp caseIdx true false cd), pat)

/-- Legacy skip-forward loop in OFF-case loading: while the slot at the
current end of the list holds valid data for IN23/IN24 (inputs 22/23),
advance the count past it (resurrecting the stale slot).  `fuel` bounds the
recursion; `MAX_ACTIVE_CASES - count` steps always suffice since each step
increments the count and the loop stops at `MAX_ACTIVE_CASES`. -/
def skipStaleFuel : Nat → EngineState → EngineState
  | 0, s => s
  | fuel + 1, s =>
    if s.count < MAX_ACTIVE_CASES ∧
       ((s.arr.getD s.count default).input_num = 22 ∨
        (s.arr.getD s.count default).input_num = 23) ∧
       (s.arr.getD s.count default).case_data.valid
    then skipStaleFuel fuel { s with count := s.count + 1 }
    else s

def skipStale (s : EngineState) : EngineState :=
  skipStaleFuel (MAX_ACTIVE_CASES - s.count) s

/-- Loop body of deactivation STEP 3: read OFF case `caseIdx` and append it
as a one-shot entry, after the legacy IN23/IN24 skip. -/
def loadOffCase (env : Env) (inp : Nat) (s : EngineState) (caseIdx : Nat) :
    EngineState :=
  if MAX_ACTIVE_CASES ≤ s.count then s
  else
    match EEPROM_GetCaseAddress inp caseIdx false with
    | none => s
    | some addr =>
      match EEPROM_ReadCase env.rom addr with
      | none => s
      | some cd =>
        appendCase (skipStale s) (mkLoadedEntry inp caseIdx false true cd)

/-- `EEPROM_HandleInputChange`. -/
def EEPROM_HandleInputChange (env : Env) (input_num : Nat) (new_state : Bool)
    (s : EngineState) : EngineState :=
  if TOTAL_INPUTS ≤ input_num then s
  else if new_state then
    -- INPUT TURNED ON
    let pairs := capturePairs MAX_ON_CASES_PER_INPUT (isFor input_num) (live s)
    let s1 := compactRemove (keepOther input_num) s
    let s2 := insertClearings input_num pairs s1
    let num_on := min (input_on_case_count.getD input_num 0) MAX_ON_CASES_PER_INPUT
    let r := (List.range num_on).foldl (loadOnCase env input_num) (s2, (false, 0, 0))
    let s3 := r.1
    let hp := r.2.1
    if hp then
      setTimerAt s3 input_num
        { state := PATTERN_STATE_ON_PHASE, timer := r.2.2.1,
          on_time := r.2.2.1, off_time := r.2.2.2, has_pattern := true }
    else
      setTimerAt s3 input_num (disarmTimer (s3.timers input_num))
  else
    -- INPUT TURNED OFF
    let sd := setTimerAt s input_num (disarmTimer (s.timers input_num))
    let pairs := capturePairs MAX_ON_CASES_PER_INPUT (isOnFor input_num) (live sd)
    let s1 := compactRemove (keepOther input_num) sd
    let s2 := insertClearings input_num pairs s1
    let num_off := min (input_off_case_count.getD input_num 0) MAX_OFF_CASES_PER_INPUT
    (List.range num_off).foldl (loadOffCase env input_num) s2

/-! ## Manual override controller -/

/-- `GetIgnitionBitPosition`: position of the single set bit of payload
byte 0, `none` when no bit or several bits are set. -/
def GetIgnitionBitPosition (cd : CaseData) : Option Nat :=
  let b0 := cd.data.getD 0 0
  let setBits := (List.range 8).filter (fun i => b0 &&& (1 <<< i) ≠ 0)
  match setBits with
  | [pos] => some pos
  | _ => none

/-- `EEPROM_ClearManualCase`: remove the input's entries, insert a one-shot
clearing copy of its first ON case (data zeroed, everything else kept), and
disarm the input's pattern timer. -/
def EEPROM_ClearManualCase (env : Env) (input_num : Nat) (s : EngineState) :
    EngineState :=
  if TOTAL_INPUTS ≤ input_num then s
  else
    let s1 := compactRemove (keepOther input_num) s
    let s2 :=
      match EEPROM_GetCaseAddress input_num 0 true with
      | none => s1
      | some a =>
        match EEPROM_ReadCase env.rom a with
        | none => s1
        | some cd =>
          appendCase s1 (mkLoadedEntry input_num 0 false true
            { cd with data := zeros8 })
    setTimerAt s2 input_num (disarmTimer (s2.timers input_num))

/-- `EEPROM_SetManualCase`: returns the C success flag together with the new
state.  Note STEP 1 (`EEPROM_ClearManualCase`) runs before any validation of
the case payload. -/
def EEPROM_SetManualCase (env : Env) (input_num : Nat)
    (ignition_on starter_on : Bool) (s : EngineState) : Bool × EngineState :=
  if TOTAL_INPUTS ≤ input_num then (false, s)
  else
    let s1 := EEPROM_ClearManualCase env input_num s
    match EEPROM_GetCaseAddress input_num 0 true with
    | none => (false, s1)
    | some a =>
      match EEPROM_ReadCase env.rom a with
      | none => (false, s1)
      | some cd =>
        match GetIgnitionBitPosition cd with
        | none => (false, s1)
        | some ignition_bit =>
          let starter_bit := if ignition_bit = 0 then 7 else ignition_bit - 1
          let b0 := (if ignition_on then 1 <<< ignition_bit else 0) |||
                    (if starter_on then 1 <<< starter_bit else 0)
          let cd' := { cd with data := b0 :: List.replicate 7 0 }
          if MAX_ACTIVE_CASES ≤ s1.count then (false, s1)
          else (true, appendCase s1 (mkLoadedEntry input_num 0 true false cd'))

/-! ## Ignition-tracking controller -/

/-- `EEPROM_IsTrackIgnitionCase`: configuration byte bits 6-7 equal 01. -/
def EEPROM_IsTrackIgnitionCase (env : Env) (input_num case_num : Nat) : Bool :=
  if TOTAL_INPUTS ≤ input_num then false
  else
    match EEPROM_GetCaseAddress input_num case_num true with
    | none => false
    | some a => decide (ReadEEPROMByte env.rom (a + 4) &&& 0xC0 = 0x40)

/-- All `(input, case)` pairs scanned by the track-ignition loops, in loop
order. -/
def trackScanPairs : List (Nat × Nat) :=
  (List.range TOTAL_INPUTS).flatMap fun inp =>
    (List.range (min (input_on_case_count.getD inp 0) MAX_ON_CASES_PER_INPUT)).map
      fun c => (inp, c)

/-- Loop body of track-ignition STEP 2 (ignition on): append every
ignition-tracked case as a persistent entry.  The early `return` at a full
list is equivalent to the guard since the count never decreases. -/
def addTrackedCase (env : Env) (s : EngineState) (ic : Nat × Nat) : EngineState :=
  if MAX_ACTIVE_CASES ≤ s.count then s
  else if EEPROM_IsTrackIgnitionCase env ic.1 ic.2 then
    match EEPROM_GetCaseAddress ic.1 ic.2 true with
    | none => s
    | some addr =>
      match EEPROM_ReadCase env.rom addr with
      | none => s
      | some cd => appendCase s (mkLoadedEntry ic.1 ic.2 true false cd)
  else s

/-- STEP 3 scan (ignition off): collect the unique identifier/priority set of
all ignition-tracked cases from the EEPROM. -/
def trackedPairs (env : Env) : List PGNSA :=
  trackScanPairs.foldl (fun acc ic =>
    if EEPROM_IsTrackIgnitionCase env ic.1 ic.2 then
      match EEPROM_GetCaseAddress ic.1 ic.2 true with
      | none => acc
      | some addr =>
        match EEPROM_ReadCase env.rom addr with
        | none => acc
        | some cd =>
          addPair MAX_ACTIVE_CASES acc cd.pgn cd.source_addr cd.priority
    else acc) []

/-- `EEPROM_UpdateIgnitionTrackedCases`. -/
def EEPROM_UpdateIgnitionTrackedCases (env : Env) (ignition_flag : Bool)
    (s : EngineState) : EngineState :=
  let s1 := compactRemove
    (fun e => !EEPROM_IsTrackIgnitionCase env e.input_num e.case_num) s
  if ignition_flag then
    trackScanPairs.foldl (addTrackedCase env) s1
  else
    ((trackedPairs env).enum.map (fun ic => mkClearingEntry 0xFF ic.1 ic.2)).foldl
      appendCase s1

/-! ## Aggregation / override engine -/

/-- Per-identifier claimed-bits mask (struct `PatternMaskEntry`; the `valid`
flag of the C struct is implied by list membership). -/
structure PatternMaskEntry where
  pgn : Nat
  source_addr : Nat
  pattern_mask : List Nat
deriving DecidableEq, Repr, Inhabited

/-- Merge `f` into the first list element satisfying `p`; `none` when no
element matches.  This captures the find-and-update loops of the C code. -/
def mergeFirst {α : Type} (p : α → Bool) (f : α → α) : List α → Option (List α)
  | [] => none
  | x :: xs =>
    if p x then some (f x :: xs)
    else (mergeFirst p f xs).map (fun l => x :: l)

/-- The entry's owning input has an armed pattern timer (`has_pattern` local
of PASS 2; false for the synthetic `input_num = 0xFF` clearing entries). -/
def hasPatternOf (s : EngineState) (e : ActiveCase) : Bool :=
  decide (e.input_num < TOTAL_INPUTS) && (s.timers e.input_num).has_pattern

/-- PASS 1 condition: valid entries of pattern-owning inputs. -/
def patOwner (s : EngineState) (e : ActiveCase) : Bool :=
  e.case_data.valid && hasPatternOf s e

/-- PASS 1 loop body: OR the entry's payload into its identifier's claimed-
bits mask, creating a mask entry when the table (capacity
`MAX_UNIQUE_MESSAGES`) has room. -/
def pass1Step (s : EngineState) (masks : List PatternMaskEntry) (e : ActiveCase) :
    List PatternMaskEntry :=
  if patOwner s e then
    match mergeFirst
      (fun m => decide (m.pgn = e.case_data.pgn) &&
                decide (m.source_addr = e.case_data.source_addr))
      (fun m => { m with pattern_mask := or8 m.pattern_mask e.case_data.data })
      masks with
    | some masks' => masks'
    | none =>
      if masks.length < MAX_UNIQUE_MESSAGES then
        masks ++ [⟨e.case_data.pgn, e.case_data.source_addr, copy8 e.case_data.data⟩]
      else masks
  else masks

/-- The pattern-mask table built by PASS 1. -/
def patternMasks (s : EngineState) (l : List ActiveCase) : List PatternMaskEntry :=
  l.foldl (pass1Step s) []

/-- Mask lookup in PASS 2: the matching table entry's mask, or all-zero. -/
def patternMaskFor (masks : List PatternMaskEntry) (pgn sa : Nat) : List Nat :=
  match masks.find? (fun m => decide (m.pgn = pgn) && decide (m.source_addr = sa)) with
  | some m => copy8 m.pattern_mask
  | none => zeros8

/-- Effective payload of an active entry in PASS 2: all-zero in the OFF phase
of the owning input's pattern; with pattern-claimed bits removed for an
overridable entry; the raw payload otherwise. -/
def effectiveData (s : EngineState) (masks : List PatternMaskEntry)
    (e : ActiveCase) : List Nat :=
  let in_off_phase := hasPatternOf s e && !EEPROM_Pattern_IsInOnPhase s e.input_num
  let override_mask :=
    if e.case_data.can_be_overridden then
      patternMaskFor masks e.case_data.pgn e.case_data.source_addr
    else zeros8
  (List.range 8).map fun k =>
    if in_off_phase then 0
    else if e.case_data.can_be_overridden then
      bandNot8 (e.case_data.data.getD k 0) (override_mask.getD k 0)
    else e.case_data.data.getD k 0

/-- PASS 2 contribution condition: the entry is valid and its prerequisite
bitmaps pass `CheckInputConditions`. -/
def contributes (env : Env) (e : ActiveCase) : Bool :=
  e.case_data.valid &&
  CheckInputConditions env e.case_data.must_be_on e.case_data.must_be_off

/-- PASS 2 loop body: skip non-contributing entries; OR the effective payload
into the entry's identifier bucket (also ORing the pattern flag), creating a
new bucket seeded with the entry's priority when there is room. -/
def processEntry (env : Env) (s : EngineState) (masks : List PatternMaskEntry)
    (max_messages : Nat) (msgs : List AggregatedMessage) (e : ActiveCase) :
    List AggregatedMessage :=
  if contributes env e then
    let hp := hasPatternOf s e
    let eff := effectiveData s masks e
    match mergeFirst
      (fun m => decide (m.pgn = e.case_data.pgn) &&
                decide (m.source_addr = e.case_data.source_addr))
      (fun m => { m with data := or8 m.data eff, has_pattern := m.has_pattern || hp })
      msgs with
    | some msgs' => msgs'
    | none =>
      if msgs.length < max_messages then
        msgs ++ [{ priority := e.case_data.priority
                   pgn := e.case_data.pgn
                   source_addr := e.case_data.source_addr
                   data := eff
                   valid := true
                   has_pattern := hp
                   data_changed := false }]
      else msgs
  else msgs

/-- STEP 2 loop body: fold one inLINK slot into the buckets (new buckets get
the default J1939 priority 6). -/
def inlinkStep (env : Env) (max_messages : Nat) (msgs : List AggregatedMessage)
    (slot : Nat) : List AggregatedMessage :=
  match env.inlink slot with
  | none => msgs
  | some im =>
    if ¬im.valid then msgs
    else
      match mergeFirst
        (fun m => decide (m.pgn = im.pgn) && decide (m.source_addr = im.source_addr))
        (fun m => { m with data := or8 m.data im.data })
        msgs with
      | some msgs' => msgs'
      | none =>
        if msgs.length < max_messages then
          msgs ++ [{ priority := 6
                     pgn := im.pgn
                     source_addr := im.source_addr
                     data := copy8 im.data
                     valid := true
                     has_pattern := false
                     data_changed := false }]
        else msgs

/-- `EEPROM_GetAggregatedMessages`: the returned list holds the
`msg_count` valid buckets in creation order. -/
def EEPROM_GetAggregatedMessages (env : Env) (s : EngineState)
    (max_messages : Nat) : List AggregatedMessage :=
  if max_messages = 0 then []
  else
    let masks := patternMasks s (live s)
    let local_msgs := (live s).foldl (processEntry env s masks max_messages) []
    (List.range MAX_INLINK_MESSAGES).foldl (inlinkStep env max_messages) local_msgs

/-! ## Basic lemmas about the array model -/

theorem take_set_concat {α : Type} :
    ∀ (l : List α) (n : Nat) (e : α), n < l.length →
      (l.set n e).take (n + 1) = l.take n ++ [e] := by
  intro l
  induction l with
  | nil => intro n e h; simp at h
  | cons a l ih =>
    intro n e h
    cases n with
    | zero => simp
    | succ m =>
      simp only [List.set_cons_succ, List.take_succ_cons, List.cons_append]
      rw [ih m e (by simpa using h)]

theorem length_live (s : EngineState) (h : WF s) : (live s).length = s.count := by
  obtain ⟨h1, h2⟩ := h
  simp only [live, List.length_take]
  omega

theorem appendCase_full (s : EngineState) (e : ActiveCase)
    (h : MAX_ACTIVE_CASES ≤ s.count) : appendCase s e = s := by
  simp [appendCase, Nat.not_lt.mpr h]

theorem live_appendCase (s : EngineState) (e : ActiveCase) (h : WF s)
    (hlt : s.count < MAX_ACTIVE_CASES) :
    live (appendCase s e) = live s ++ [e] := by
  simp only [appendCase, if_pos hlt, live]
  exact take_set_concat s.arr s.count e (by rw [h.1]; exact hlt)

theorem WF_appendCase (s : EngineState) (e : ActiveCase) (h : WF s) :
    WF (appendCase s e) := by
  obtain ⟨h1, h2⟩ := h
  unfold appendCase
  split
  · next hlt => exact ⟨by simp [h1], hlt⟩
  · exact ⟨h1, h2⟩

theorem count_appendCase_le (s : EngineState) (e : ActiveCase)
    (h : s.count ≤ MAX_ACTIVE_CASES) : (appendCase s e).count ≤ MAX_ACTIVE_CASES := by
  unfold appendCase
  split
  · next hlt => exact hlt
  · exact h

theorem kept_length_le (keep : ActiveCase → Bool) (s : EngineState) :
    ((live s).filter keep).length ≤ s.count ∧
    ((live s).filter keep).length ≤ s.arr.length := by
  have h1 : ((live s).filter keep).length ≤ (live s).length :=
    List.length_filter_le _ _
  have h2 : (live s).length ≤ s.count := List.length_take_le _ _
  have h3 : (live s).length ≤ s.arr.length := by
    simp only [live, List.length_take]; omega
  exact ⟨le_trans h1 h2, le_trans h1 h3⟩

theorem live_compactRemove (keep : ActiveCase → Bool) (s : EngineState) :
    live (compactRemove keep s) = (live s).filter keep := by
  show (((live s).filter keep) ++
      s.arr.drop ((live s).filter keep).length).take ((live s).filter keep).length =
      (live s).filter keep
  exact List.take_left _ _

theorem WF_compactRemove (keep : ActiveCase → Bool) (s : EngineState) (h : WF s) :
    WF (compactRemove keep s) := by
  obtain ⟨h1, h2⟩ := h
  obtain ⟨hk1, hk2⟩ := kept_length_le keep s
  constructor
  · show (((live s).filter keep) ++
        s.arr.drop ((live s).filter keep).length).length = MAX_ACTIVE_CASES
    simp only [List.length_append, List.length_drop]
    omega
  · show ((live s).filter keep).length ≤ MAX_ACTIVE_CASES
    omega

theorem count_compactRemove_le (keep : ActiveCase → Bool) (s : EngineState)
    (h : s.count ≤ MAX_ACTIVE_CASES) :
    (compactRemove keep s).count ≤ MAX_ACTIVE_CASES := by
  have hk := (kept_length_le keep s).1
  show ((live s).filter keep).length ≤ MAX_ACTIVE_CASES
  omega

theorem timers_compactRemove (keep : ActiveCase → Bool) (s : EngineState) :
    (compactRemove keep s).timers = s.timers := rfl

theorem timers_appendCase (s : EngineState) (e : ActiveCase) :
    (appendCase s e).timers = s.timers := by
  unfold appendCase; split <;> rfl

/-! ## Pattern timer dynamics (claim C2) -/

/-- Apply `EEPROM_Pattern_UpdateTimers` `k` times. -/
def tickN : Nat → EngineState → EngineState
  | 0, s => s
  | k + 1, s => tickN k (EEPROM_Pattern_UpdateTimers s)

/-- Apply the single-timer loop body `k` times. -/
def tickTimerN : Nat → PatternTimer → PatternTimer
  | 0, t => t
  | k + 1, t => tickTimerN k (tickTimer t)

theorem updateTimers_timers (s : EngineState) (i : Nat) (h : i < TOTAL_INPUTS) :
    (EEPROM_Pattern_UpdateTimers s).timers i = tickTimer (s.timers i) := by
  simp [EEPROM_Pattern_UpdateTimers, h]

theorem tickN_timers (i : Nat) (h : i < TOTAL_INPUTS) :
    ∀ (k : Nat) (s : EngineState), (tickN k s).timers i = tickTimerN k (s.timers i) := by
  intro k
  induction k with
  | zero => intro s; rfl
  | succ m ih =>
    intro s
    show (tickN m (EEPROM_Pattern_UpdateTimers s)).timers i =
      tickTimerN m (tickTimer (s.timers i))
    rw [ih, updateTimers_timers s i h]

theorem tickTimerN_add (a b : Nat) (t : PatternTimer) :
    tickTimerN (a + b) t = tickTimerN b (tickTimerN a t) := by
  induction a generalizing t with
  | zero => rw [Nat.zero_add]; rfl
  | succ m ih =>
    rw [show m + 1 + b = (m + b) + 1 by omega]
    show tickTimerN (m + b) (tickTimer t) = tickTimerN b (tickTimerN m (tickTimer t))
    exact ih (tickTimer t)

theorem tickTimer_has_pattern (t : PatternTimer) :
    (tickTimer t).has_pattern = t.has_pattern := by
  simp only [tickTimer]
  split_ifs <;> rfl

theorem tickTimerN_has_pattern (k : Nat) (t : PatternTimer) :
    (tickTimerN k t).has_pattern = t.has_pattern := by
  induction k generalizing t with
  | zero => rfl
  | succ m ih =>
    show (tickTimerN m (tickTimer t)).has_pattern = t.has_pattern
    rw [ih, tickTimer_has_pattern]

/-- The C2 scenario timer: armed in OnPhase, on-duration 3, off-duration 2,
countdown 3. -/
def c2Timer : PatternTimer :=
  { state := PATTERN_STATE_ON_PHASE, timer := 3, on_time := 3, off_time := 2,
    has_pattern := true }

/-- The C2 scenario engine state: input 2 carries `c2Timer`, everything else
is idle. -/
def c2State : EngineState :=
  { arr := List.replicate MAX_ACTIVE_CASES default
    count := 0
    timers := fun i => if i = 2 then c2Timer else default }

theorem c2Timer_period : tickTimerN 6 c2Timer = tickTimerN 1 c2Timer := by decide

theorem c2State_phase (k : Nat) :
    EEPROM_Pattern_IsInOnPhase (tickN k c2State) 2 =
      decide ((tickTimerN k c2Timer).state = PATTERN_STATE_ON_PHASE) := by
  have h2 : (2 : Nat) < TOTAL_INPUTS := by decide
  have ht : (tickN k c2State).timers 2 = tickTimerN k c2Timer := by
    rw [tickN_timers 2 h2 k c2State]; rfl
  have hp : (tickTimerN k c2Timer).has_pattern = true := by
    rw [tickTimerN_has_pattern]; rfl
  unfold EEPROM_Pattern_IsInOnPhase
  rw [ht]
  simp [hp, Nat.not_le.mpr h2]

/-- Claim C2 counterexample: with on-duration 3, off-duration 2, countdown 3,
armed in OnPhase, `EEPROM_Pattern_IsInOnPhase` is false after ticks 4 and 5
but already true again after tick 6 — the off phase lasts 2 consecutive
ticks, not the 3 the claim ("each phase is observably active for
duration + 1 ticks") requires. -/
theorem claim_C2_counterexample :
    EEPROM_Pattern_IsInOnPhase (tickN 4 c2State) 2 = false ∧
    EEPROM_Pattern_IsInOnPhase (tickN 5 c2State) 2 = false ∧
    EEPROM_Pattern_IsInOnPhase (tickN 6 c2State) 2 = true := by
  refine ⟨?_, ?_, ?_⟩ <;> decide

/-- Claim C2 (amended): starting armed in OnPhase with on-duration 3,
off-duration 2 and countdown 3, `EEPROM_Pattern_IsInOnPhase` reports true for
exactly 4 consecutive ticks (the initial phase lasts duration + 1 ticks
because the countdown was loaded without the post-reload decrement), then
false for exactly 2 consecutive ticks, then true for 3 ticks and false for 2
ticks, repeating: from tick 1 on the behaviour is periodic with period
on-duration + off-duration = 5, each steady-state phase lasting exactly its
configured duration. -/
theorem claim_C2_pattern_phase_amended :
    (∀ k, k < 4 → EEPROM_Pattern_IsInOnPhase (tickN k c2State) 2 = true) ∧
    EEPROM_Pattern_IsInOnPhase (tickN 4 c2State) 2 = false ∧
    EEPROM_Pattern_IsInOnPhase (tickN 5 c2State) 2 = false ∧
    (∀ k, 6 ≤ k → k ≤ 8 → EEPROM_Pattern_IsInOnPhase (tickN k c2State) 2 = true) ∧
    EEPROM_Pattern_IsInOnPhase (tickN 9 c2State) 2 = false ∧
    EEPROM_Pattern_IsInOnPhase (tickN 10 c2State) 2 = false ∧
    (∀ k, 1 ≤ k →
      EEPROM_Pattern_IsInOnPhase (tickN (k + 5) c2State) 2 =
        EEPROM_Pattern_IsInOnPhase (tickN k c2State) 2) := by
  refine ⟨by decide, by decide, by decide, ?_, by decide, by decide, ?_⟩
  · intro k h6 h8
    interval_cases k <;> decide
  · intro k hk
    obtain ⟨j, rfl⟩ : ∃ j, k = 1 + j := ⟨k - 1, by omega⟩
    rw [c2State_phase, c2State_phase]
    have hper : tickTimerN (1 + j + 5) c2Timer = tickTimerN (1 + j) c2Timer := by
      rw [show 1 + j + 5 = 6 + j by omega, tickTimerN_add 6 j, c2Timer_period,
        ← tickTimerN_add 1 j]
    rw [hper]

/-- Witness for C2 (amended): the theorem applied at ticks 0 and 1. -/
theorem claim_C2_witness :
    EEPROM_Pattern_IsInOnPhase (tickN 0 c2State) 2 = true ∧
    EEPROM_Pattern_IsInOnPhase (tickN (1 + 5) c2State) 2 =
      EEPROM_Pattern_IsInOnPhase (tickN 1 c2State) 2 :=
  ⟨claim_C2_pattern_phase_amended.1 0 (by decide),
   claim_C2_pattern_phase_amended.2.2.2.2.2.2 1 (by decide)⟩

/-! ## Conditional evaluator characterization (claim C8) -/

theorem guard_eq_off (P : Prop) [Decidable P] (b : Bool) :
    ((decide P && b) = false) ↔ (P → b = false) := by
  by_cases hP : P <;> cases b <;> simp [hP]

theorem all_congr {α : Type} {l : List α} {p q : α → Bool}
    (h : ∀ x ∈ l, p x = q x) : l.all p = l.all q := by
  induction l with
  | nil => rfl
  | cons a t ih =>
    simp only [List.all_cons, h a (by simp)]
    rw [ih (fun x hx => h x (by simp [hx]))]

theorem check_characterization (env : Env) (mon moff : List Nat) :
    CheckInputConditions env mon moff = true ↔
      (∀ i, i < TOTAL_INPUTS →
        (mon.getD (i / 8) 0 &&& (1 <<< (i % 8)) ≠ 0 → env.inputs i = true) ∧
        (moff.getD (i / 8) 0 &&& (1 <<< (i % 8)) ≠ 0 → env.inputs i = false)) ∧
      (mon.getD 5 0 &&& 0x20 ≠ 0 → env.ignition = true) ∧
      (moff.getD 5 0 &&& 0x20 ≠ 0 → env.ignition = false) := by
  unfold CheckInputConditions
  simp only [Bool.and_eq_true, List.all_eq_true, List.mem_range,
    Bool.not_eq_true', guard_eq_off, Bool.not_eq_false']
  tauto

theorem reserved_bits_eq {a b : Nat} (h : a &&& 0xEF = b &&& 0xEF) (j : Nat)
    (hj : j < 4 ∨ j = 5) : a &&& (1 <<< j) = b &&& (1 <<< j) := by
  have hm : (0xEF : Nat) &&& (1 <<< j) = 1 <<< j := by
    rcases hj with hj | rfl
    · interval_cases j <;> decide
    · decide
  calc a &&& (1 <<< j) = a &&& (0xEF &&& (1 <<< j)) := by rw [hm]
    _ = (a &&& 0xEF) &&& (1 <<< j) := by rw [Nat.land_assoc]
    _ = (b &&& 0xEF) &&& (1 <<< j) := by rw [h]
    _ = b &&& (0xEF &&& (1 <<< j)) := by rw [Nat.land_assoc]
    _ = b &&& (1 <<< j) := by rw [hm]

theorem check_congr (env : Env) (mon moff mon' moff' : List Nat)
    (h1 : ∀ k, k < 5 → mon'.getD k 0 = mon.getD k 0)
    (h2 : ∀ k, k < 5 → moff'.getD k 0 = moff.getD k 0)
    (h3 : mon'.getD 5 0 &&& 0xEF = mon.getD 5 0 &&& 0xEF)
    (h4 : moff'.getD 5 0 &&& 0xEF = moff.getD 5 0 &&& 0xEF) :
    CheckInputConditions env mon' moff' = CheckInputConditions env mon moff := by
  have keyOn : ∀ i, i < TOTAL_INPUTS →
      mon'.getD (i / 8) 0 &&& (1 <<< (i % 8)) = mon.getD (i / 8) 0 &&& (1 <<< (i % 8)) := by
    intro i hi
    have hi44 : i < 44 := hi
    by_cases h40 : i < 40
    · rw [h1 (i / 8) (by omega)]
    · have hdiv : i / 8 = 5 := by omega
      have hmod : i % 8 < 4 := by omega
      rw [hdiv]
      exact reserved_bits_eq h3 (i % 8) (Or.inl hmod)
  have keyOff : ∀ i, i < TOTAL_INPUTS →
      moff'.getD (i / 8) 0 &&& (1 <<< (i % 8)) = moff.getD (i / 8) 0 &&& (1 <<< (i % 8)) := by
    intro i hi
    have hi44 : i < 44 := hi
    by_cases h40 : i < 40
    · rw [h2 (i / 8) (by omega)]
    · have hdiv : i / 8 = 5 := by omega
      have hmod : i % 8 < 4 := by omega
      rw [hdiv]
      exact reserved_bits_eq h4 (i % 8) (Or.inl hmod)
  have ignOn : mon'.getD 5 0 &&& 0x20 = mon.getD 5 0 &&& 0x20 := by
    have h32 : (0x20 : Nat) = 1 <<< 5 := by decide
    rw [h32]
    exact reserved_bits_eq h3 5 (Or.inr rfl)
  have ignOff : moff'.getD 5 0 &&& 0x20 = moff.getD 5 0 &&& 0x20 := by
    have h32 : (0x20 : Nat) = 1 <<< 5 := by decide
    rw [h32]
    exact reserved_bits_eq h4 5 (Or.inr rfl)
  unfold CheckInputConditions
  rw [ignOn, ignOff]
  rw [all_congr (fun i hi => by
    rw [keyOn i (List.mem_range.mp hi), keyOff i (List.mem_range.mp hi)])]

/-- Claim C8: `CheckInputConditions` succeeds iff every input whose bit is
set in `must_be_on` is active, every input whose bit is set in `must_be_off`
is inactive, ignition is active when bit 0x20 of byte 5 of `must_be_on` is
set and inactive when that bit of `must_be_off` is set; and the result is
unchanged under any modification of the security bit (0x10 of byte 5) or of
bytes 6 and 7 of either bitmap. -/
theorem claim_C8_check_conditions (env : Env) (mon moff : List Nat) :
    (CheckInputConditions env mon moff = true ↔
      (∀ i, i < TOTAL_INPUTS →
        (mon.getD (i / 8) 0 &&& (1 <<< (i % 8)) ≠ 0 → env.inputs i = true) ∧
        (moff.getD (i / 8) 0 &&& (1 <<< (i % 8)) ≠ 0 → env.inputs i = false)) ∧
      (mon.getD 5 0 &&& 0x20 ≠ 0 → env.ignition = true) ∧
      (moff.getD 5 0 &&& 0x20 ≠ 0 → env.ignition = false)) ∧
    (∀ mon' moff',
      (∀ k, k < 5 → mon'.getD k 0 = mon.getD k 0) →
      (∀ k, k < 5 → moff'.getD k 0 = moff.getD k 0) →
      mon'.getD 5 0 &&& 0xEF = mon.getD 5 0 &&& 0xEF →
      moff'.getD 5 0 &&& 0xEF = moff.getD 5 0 &&& 0xEF →
      CheckInputConditions env mon' moff' = CheckInputConditions env mon moff) :=
  ⟨check_characterization env mon moff,
   fun mon' moff' h1 h2 h3 h4 => check_congr env mon moff mon' moff' h1 h2 h3 h4⟩

/-- Environment with all inputs off, ignition off, blank EEPROM, no relayed
messages. -/
def envAllOff : Env :=
  { rom := fun _ => 0xFF
    inputs := fun _ => false
    ignition := false
    inlink := fun _ => none }

/-- Witness for C8: the characterization evaluated on the all-zero bitmaps,
and invariance applied to a bitmap pair differing in the security bit and in
bytes 6-7. -/
theorem claim_C8_witness :
    CheckInputConditions envAllOff zeros8 zeros8 = true ∧
    CheckInputConditions envAllOff [0, 0, 0, 0, 0, 0x10, 0xAA, 0xBB] zeros8 =
      CheckInputConditions envAllOff zeros8 zeros8 :=
  ⟨(claim_C8_check_conditions envAllOff zeros8 zeros8).1.mpr (by decide),
   (claim_C8_check_conditions envAllOff zeros8 zeros8).2
     [0, 0, 0, 0, 0, 0x10, 0xAA, 0xBB] zeros8
     (by decide) (by decide) (by decide) (by decide)⟩

/-! ## Manual override controller (claims C4, C9) -/

/-- All-empty engine state. -/
def emptyState : EngineState :=
  { arr := List.replicate MAX_ACTIVE_CASES default
    count := 0
    timers := fun _ => default }

/-- EEPROM image for the C4 scenario: input 0's first ON case (at 0x22)
decodes as priority 6, identifier (0xFF01, 0x1E), with payload byte 0 = 0x00
(no bit set); everything else is blank. -/
def c4Rom : Nat → Nat := fun a =>
  if a = 0x22 then 6
  else if a = 0x23 then 0xFF
  else if a = 0x24 then 0x01
  else if a = 0x25 then 0x1E
  else if 0x26 ≤ a ∧ a ≤ 0x41 then 0
  else 0xFF

def c4Env : Env :=
  { rom := c4Rom, inputs := fun _ => false, ignition := false,
    inlink := fun _ => none }

/-- Claim C4 counterexample: with input 0's first ON case carrying payload
byte 0 = 0x00 (zero set bits), `EEPROM_SetManualCase` returns failure but has
already mutated the engine: starting from an empty active list, the list
afterwards holds one (clearing) entry, because STEP 1 runs
`EEPROM_ClearManualCase` before the primary bit is validated. -/
theorem claim_C4_counterexample :
    (EEPROM_SetManualCase c4Env 0 true false emptyState).1 = false ∧
    (EEPROM_SetManualCase c4Env 0 true false emptyState).2.count = 1 ∧
    emptyState.count = 0 := by
  refine ⟨?_, ?_, rfl⟩ <;> decide

/-- Claim C4 (amended): when the first ON case decodes but its payload byte 0
does not have exactly one set bit, `EEPROM_SetManualCase` returns failure and
no manual entry is inserted, but the state is the one left behind by the
STEP-1 `EEPROM_ClearManualCase` call: the input's entries are removed, a
one-shot clearing entry is inserted, and the input's pattern timer is
disarmed. -/
theorem claim_C4_manual_failure_amended (env : Env) (input_num : Nat)
    (ignition_on starter_on : Bool) (s : EngineState) (a : Nat) (cd : CaseData)
    (hin : input_num < TOTAL_INPUTS)
    (haddr : EEPROM_GetCaseAddress input_num 0 true = some a)
    (hread : EEPROM_ReadCase env.rom a = some cd)
    (hbit : GetIgnitionBitPosition cd = none) :
    EEPROM_SetManualCase env input_num ignition_on starter_on s =
      (false, EEPROM_ClearManualCase env input_num s) := by
  unfold EEPROM_SetManualCase
  rw [if_neg (Nat.not_le.mpr hin)]
  simp only [haddr, hread, hbit]

/-- The decoded C4 scenario case. -/
def c4Case : CaseData :=
  { priority := 6, pgn := 0xFF01, source_addr := 0x1E, data := zeros8
    pattern_on_time := 0, pattern_off_time := 0
    must_be_on := zeros8, must_be_off := zeros8
    valid := true, can_be_overridden := false }

/-- Witness for C4 (amended): the theorem applied to the C4 scenario. -/
theorem claim_C4_witness :
    EEPROM_SetManualCase c4Env 0 true false emptyState =
      (false, EEPROM_ClearManualCase c4Env 0 emptyState) :=
  claim_C4_manual_failure_amended c4Env 0 true false emptyState 0x22 c4Case
    (by decide) (by decide) (by decide) (by decide)

theorem WF_setTimerAt (s : EngineState) (i : Nat) (t : PatternTimer)
    (h : WF s) : WF (setTimerAt s i t) := h

theorem WF_clearManualCase (env : Env) (input_num : Nat) (s : EngineState)
    (h : WF s) : WF (EEPROM_ClearManualCase env input_num s) := by
  unfold EEPROM_ClearManualCase
  split
  · exact h
  · apply WF_setTimerAt
    have h1 := WF_compactRemove (fun e => e.input_num ≠ input_num) s h
    split
    · exact h1
    · split
      · exact h1
      · exact WF_appendCase _ _ h1

/-- Claim C9: when `EEPROM_SetManualCase` succeeds, it appends exactly one
persistent entry whose identifier, priority, overridable flag, prerequisite
bitmaps (and pattern nibbles) come unchanged from the decoded first ON case;
only the payload is rewritten: byte 0 carries exactly the requested
ignition/starter bits and bytes 1-7 are zero.  Such an entry is skipped by
the aggregation merge pass whenever its prerequisites fail. -/
theorem claim_C9_manual_success (env : Env) (input_num : Nat)
    (ignition_on starter_on : Bool) (s : EngineState) (a p : Nat) (cd : CaseData)
    (hwf : WF s)
    (hin : input_num < TOTAL_INPUTS)
    (haddr : EEPROM_GetCaseAddress input_num 0 true = some a)
    (hread : EEPROM_ReadCase env.rom a = some cd)
    (hbit : GetIgnitionBitPosition cd = some p)
    (hroom : (EEPROM_ClearManualCase env input_num s).count < MAX_ACTIVE_CASES) :
    EEPROM_SetManualCase env input_num ignition_on starter_on s =
      (true, appendCase (EEPROM_ClearManualCase env input_num s)
        (mkLoadedEntry input_num 0 true false
          { cd with data :=
              ((if ignition_on then 1 <<< p else 0) |||
               (if starter_on then 1 <<< (if p = 0 then 7 else p - 1) else 0)) ::
              List.replicate 7 0 })) ∧
    live (EEPROM_SetManualCase env input_num ignition_on starter_on s).2 =
      live (EEPROM_ClearManualCase env input_num s) ++
        [mkLoadedEntry input_num 0 true false
          { cd with data :=
              ((if ignition_on then 1 <<< p else 0) |||
               (if starter_on then 1 <<< (if p = 0 then 7 else p - 1) else 0)) ::
              List.replicate 7 0 }] ∧
    (∀ (env2 : Env) (s2 : EngineState) (masks : List PatternMaskEntry)
       (maxm : Nat) (msgs : List AggregatedMessage),
      CheckInputConditions env2 cd.must_be_on cd.must_be_off = false →
      processEntry env2 s2 masks maxm msgs
        (mkLoadedEntry input_num 0 true false
          { cd with data :=
              ((if ignition_on then 1 <<< p else 0) |||
               (if starter_on then 1 <<< (if p = 0 then 7 else p - 1) else 0)) ::
              List.replicate 7 0 }) = msgs) := by
  have heq : EEPROM_SetManualCase env input_num ignition_on starter_on s =
      (true, appendCase (EEPROM_ClearManualCase env input_num s)
        (mkLoadedEntry input_num 0 true false
          { cd with data :=
              ((if ignition_on then 1 <<< p else 0) |||
               (if starter_on then 1 <<< (if p = 0 then 7 else p - 1) else 0)) ::
              List.replicate 7 0 })) := by
    unfold EEPROM_SetManualCase
    rw [if_neg (Nat.not_le.mpr hin)]
    simp only [haddr, hread, hbit]
    rw [if_neg (Nat.not_le.mpr hroom)]
  refine ⟨heq, ?_, ?_⟩
  · rw [heq]
    exact live_appendCase _ _ (WF_clearManualCase env input_num s hwf) hroom
  · intro env2 s2 masks maxm msgs hfail
    unfold processEntry contributes
    simp [mkLoadedEntry, hfail]

/-- EEPROM image for the C9 scenario: like the C4 image but payload byte 0 of
input 0's first ON case is 0x20 (only bit 5 set). -/
def c9Rom : Nat → Nat := fun a => if a = 0x3A then 0x20 else c4Rom a

def c9Env : Env :=
  { rom := c9Rom, inputs := fun _ => false, ignition := false,
    inlink := fun _ => none }

/-- The decoded C9 scenario case. -/
def c9Case : CaseData := { c4Case with data := 0x20 :: List.replicate 7 0 }

/-- Witness for C9: the theorem applied to the C9 scenario
(`SetManual(0, true, false)` on a case whose byte 0 has only bit 5 set). -/
theorem claim_C9_witness :
    EEPROM_SetManualCase c9Env 0 true false emptyState =
      (true, appendCase (EEPROM_ClearManualCase c9Env 0 emptyState)
        (mkLoadedEntry 0 0 true false
          { c9Case with data :=
              ((if true then 1 <<< 5 else 0) |||
               (if false then 1 <<< (if 5 = 0 then 7 else 5 - 1) else 0)) ::
              List.replicate 7 0 })) :=
  (claim_C9_manual_success c9Env 0 true false emptyState 0x22 5 c9Case
    ⟨by simp [emptyState, MAX_ACTIVE_CASES], by simp [emptyState]⟩
    (by decide) (by decide) (by decide) (by decide) (by decide)).1

/-! ## Capacity invariant (claim C7) -/

theorem count_foldl_appendCase_le {α : Type} (g : α → ActiveCase) :
    ∀ (l : List α) (s : EngineState), s.count ≤ MAX_ACTIVE_CASES →
      ((l.map g).foldl appendCase s).count ≤ MAX_ACTIVE_CASES := by
  intro l
  induction l with
  | nil => intro s h; exact h
  | cons a t ih =>
    intro s h
    exact ih (appendCase s (g a)) (count_appendCase_le s (g a) h)

theorem count_skipStaleFuel_le :
    ∀ (fuel : Nat) (s : EngineState), s.count ≤ MAX_ACTIVE_CASES →
      (skipStaleFuel fuel s).count ≤ MAX_ACTIVE_CASES := by
  intro fuel
  induction fuel with
  | zero => intro s h; exact h
  | succ m ih =>
    intro s h
    unfold skipStaleFuel
    split
    · next hc => exact ih _ hc.1
    · exact h

theorem count_skipStale_le (s : EngineState) (h : s.count ≤ MAX_ACTIVE_CASES) :
    (skipStale s).count ≤ MAX_ACTIVE_CASES :=
  count_skipStaleFuel_le _ s h

theorem count_loadOnCase_le (env : Env) (inp : Nat)
    (st : EngineState × (Bool × Nat × Nat)) (c : Nat)
    (h : st.1.count ≤ MAX_ACTIVE_CASES) :
    (loadOnCase env inp st c).1.count ≤ MAX_ACTIVE_CASES := by
  unfold loadOnCase
  split
  · exact h
  · split
    · exact h
    · split
      · exact h
      · exact count_appendCase_le _ _ h

theorem count_loadOn_fold_le (env : Env) (inp : Nat) :
    ∀ (l : List Nat) (st : EngineState × (Bool × Nat × Nat)),
      st.1.count ≤ MAX_ACTIVE_CASES →
      ((l.foldl (loadOnCase env inp) st)).1.count ≤ MAX_ACTIVE_CASES := by
  intro l
  induction l with
  | nil => intro st h; exact h
  | cons a t ih =>
    intro st h
    exact ih (loadOnCase env inp st a) (count_loadOnCase_le env inp st a h)

theorem count_loadOffCase_le (env : Env) (inp : Nat) (s : EngineState) (c : Nat)
    (h : s.count ≤ MAX_ACTIVE_CASES) :
    (loadOffCase env inp s c).count ≤ MAX_ACTIVE_CASES := by
  unfold loadOffCase
  split
  · exact h
  · split
    · exact h
    · split
      · exact h
      · exact count_appendCase_le _ _ (count_skipStale_le s h)

theorem count_loadOff_fold_le (env : Env) (inp : Nat) :
    ∀ (l : List Nat) (s : EngineState), s.count ≤ MAX_ACTIVE_CASES →
      (l.foldl (loadOffCase env inp) s).count ≤ MAX_ACTIVE_CASES := by
  intro l
  induction l with
  | nil => intro s h; exact h
  | cons a t ih =>
    intro s h
    exact ih (loadOffCase env inp s a) (count_loadOffCase_le env inp s a h)

theorem count_insertClearings_le (inp : Nat) (ps : List PGNSA) (s : EngineState)
    (h : s.count ≤ MAX_ACTIVE_CASES) :
    (insertClearings inp ps s).count ≤ MAX_ACTIVE_CASES := by
  unfold insertClearings
  exact count_foldl_appendCase_le _ _ _ h

theorem count_setTimerAt (s : EngineState) (i : Nat) (t : PatternTimer) :
    (setTimerAt s i t).count = s.count := rfl

theorem count_handleInputChange_le (env : Env) (i : Nat) (b : Bool)
    (s : EngineState) (h : s.count ≤ MAX_ACTIVE_CASES) :
    (EEPROM_HandleInputChange env i b s).count ≤ MAX_ACTIVE_CASES := by
  unfold EEPROM_HandleInputChange
  split
  · exact h
  · split
    · dsimp only
      split <;>
        (rw [count_setTimerAt]
         exact count_loadOn_fold_le env i _ _
           (count_insertClearings_le _ _ _ (count_compactRemove_le _ _ h)))
    · dsimp only
      exact count_loadOff_fold_le env i _ _
        (count_insertClearings_le _ _ _ (count_compactRemove_le _ _ h))

theorem count_clearManualCase_le (env : Env) (i : Nat) (s : EngineState)
    (h : s.count ≤ MAX_ACTIVE_CASES) :
    (EEPROM_ClearManualCase env i s).count ≤ MAX_ACTIVE_CASES := by
  unfold EEPROM_ClearManualCase
  split
  · exact h
  · rw [count_setTimerAt]
    have h1 := count_compactRemove_le (fun e => e.input_num ≠ i) s h
    split
    · exact h1
    · split
      · exact h1
      · exact count_appendCase_le _ _ h1

theorem count_setManualCase_le (env : Env) (i : Nat) (a b : Bool)
    (s : EngineState) (h : s.count ≤ MAX_ACTIVE_CASES) :
    (EEPROM_SetManualCase env i a b s).2.count ≤ MAX_ACTIVE_CASES := by
  have h1 := count_clearManualCase_le env i s h
  unfold EEPROM_SetManualCase
  split
  · exact h
  · dsimp only
    split
    · exact h1
    · split
      · exact h1
      · split
        · exact h1
        · split
          · exact h1
          · exact count_appendCase_le _ _ h1

theorem count_addTrackedCase_le (env : Env) (s : EngineState) (ic : Nat × Nat)
    (h : s.count ≤ MAX_ACTIVE_CASES) :
    (addTrackedCase env s ic).count ≤ MAX_ACTIVE_CASES := by
  unfold addTrackedCase
  split
  · exact h
  · split
    · split
      · exact h
      · split
        · exact h
        · exact count_appendCase_le _ _ h
    · exact h

theorem count_updateIgnitionTracked_le (env : Env) (b : Bool) (s : EngineState)
    (h : s.count ≤ MAX_ACTIVE_CASES) :
    (EEPROM_UpdateIgnitionTrackedCases env b s).count ≤ MAX_ACTIVE_CASES := by
  unfold EEPROM_UpdateIgnitionTrackedCases
  have h1 := count_compactRemove_le
    (fun e => !EEPROM_IsTrackIgnitionCase env e.input_num e.case_num) s h
  split
  · have : ∀ (l : List (Nat × Nat)) (s0 : EngineState),
        s0.count ≤ MAX_ACTIVE_CASES →
        (l.foldl (addTrackedCase env) s0).count ≤ MAX_ACTIVE_CASES := by
      intro l
      induction l with
      | nil => intro s0 h0; exact h0
      | cons a t ih =>
        intro s0 h0
        exact ih (addTrackedCase env s0 a) (count_addTrackedCase_le env s0 a h0)
    exact this trackScanPairs _ h1
  · exact count_foldl_appendCase_le _ _ _ h1

/-- Claim C7: every inserting operation preserves the 64-entry capacity bound
of the active list, and an insertion attempted on a full list is dropped
silently, leaving the state (existing entries included) untouched. -/
theorem claim_C7_capacity_invariant :
    (∀ (env : Env) (i : Nat) (b : Bool) (s : EngineState),
      s.count ≤ MAX_ACTIVE_CASES →
      (EEPROM_HandleInputChange env i b s).count ≤ MAX_ACTIVE_CASES) ∧
    (∀ (env : Env) (i : Nat) (a b : Bool) (s : EngineState),
      s.count ≤ MAX_ACTIVE_CASES →
      (EEPROM_SetManualCase env i a b s).2.count ≤ MAX_ACTIVE_CASES) ∧
    (∀ (env : Env) (i : Nat) (s : EngineState),
      s.count ≤ MAX_ACTIVE_CASES →
      (EEPROM_ClearManualCase env i s).count ≤ MAX_ACTIVE_CASES) ∧
    (∀ (env : Env) (b : Bool) (s : EngineState),
      s.count ≤ MAX_ACTIVE_CASES →
      (EEPROM_UpdateIgnitionTrackedCases env b s).count ≤ MAX_ACTIVE_CASES) ∧
    (∀ (s : EngineState) (e : ActiveCase),
      MAX_ACTIVE_CASES ≤ s.count → appendCase s e = s) :=
  ⟨fun env i b s h => count_handleInputChange_le env i b s h,
   fun env i a b s h => count_setManualCase_le env i a b s h,
   fun env i s h => count_clearManualCase_le env i s h,
   fun env b s h => count_updateIgnitionTracked_le env b s h,
   fun s e h => appendCase_full s e h⟩

/-- A full engine state (64 live default entries). -/
def fullState : EngineState :=
  { arr := List.replicate MAX_ACTIVE_CASES default
    count := MAX_ACTIVE_CASES
    timers := fun _ => default }

/-- Witness for C7: the invariant applied to a concrete input transition on
the empty state and to an insertion on a full list. -/
theorem claim_C7_witness :
    (EEPROM_HandleInputChange c4Env 0 true emptyState).count ≤ MAX_ACTIVE_CASES ∧
    appendCase fullState default = fullState :=
  ⟨claim_C7_capacity_invariant.1 c4Env 0 true emptyState (by decide),
   claim_C7_capacity_invariant.2.2.2.2 fullState default (Nat.le_refl _)⟩

/-! ## Clearing-set capture: specification-side (uncapped) form -/

/-- The identifier of a captured pair. -/
def pairId (q : PGNSA) : Nat × Nat := (q.pgn, q.source_addr)

/-- Uncapped unique-pair capture: the capture loop without the fixed-size
buffer limit.  When the number of distinct identifiers fits in the buffer,
`capturePairs cap` computes exactly this list. -/
def uniquePairs (p : ActiveCase → Bool) (l : List ActiveCase) : List PGNSA :=
  l.foldl (fun acc e =>
    if p e then
      if acc.any (fun q => q.pgn = e.case_data.pgn ∧
          q.source_addr = e.case_data.source_addr) then acc
      else acc ++ [⟨e.case_data.pgn, e.case_data.source_addr, e.case_data.priority⟩]
    else acc) []

theorem uniquePairs_go_nodup (p : ActiveCase → Bool) :
    ∀ (l : List ActiveCase) (acc : List PGNSA),
      (acc.map pairId).Nodup →
      ((l.foldl (fun acc e =>
        if p e then
          if acc.any (fun q => q.pgn = e.case_data.pgn ∧
              q.source_addr = e.case_data.source_addr) then acc
          else acc ++ [⟨e.case_data.pgn, e.case_data.source_addr, e.case_data.priority⟩]
        else acc) acc).map pairId).Nodup := by
  intro l
  induction l with
  | nil => intro acc h; exact h
  | cons e t ih =>
    intro acc h
    simp only [List.foldl_cons]
    split
    · split
      · exact ih acc h
      · next hany =>
        apply ih
        simp only [List.map_append, List.map_cons, List.map_nil]
        rw [List.nodup_append]
        refine ⟨h, List.nodup_singleton _, ?_⟩
        intro x hx
        simp only [List.mem_singleton]
        intro hxe
        apply hany
        simp only [List.mem_map] at hx
        obtain ⟨q, hq, hqid⟩ := hx
        refine List.any_eq_true.mpr ⟨q, hq, ?_⟩
        have : pairId q = pairId ⟨e.case_data.pgn, e.case_data.source_addr,
            e.case_data.priority⟩ := by rw [hqid, hxe]
        simp only [pairId, Prod.mk.injEq] at this
        simp [this.1, this.2]
    · exact ih acc h

theorem uniquePairs_nodup (p : ActiveCase → Bool) (l : List ActiveCase) :
    ((uniquePairs p l).map pairId).Nodup :=
  uniquePairs_go_nodup p l [] (by simp)

theorem uniquePairs_go_length (p : ActiveCase → Bool) :
    ∀ (l : List ActiveCase) (acc : List PGNSA),
      (l.foldl (fun acc e =>
        if p e then
          if acc.any (fun q => q.pgn = e.case_data.pgn ∧
              q.source_addr = e.case_data.source_addr) then acc
          else acc ++ [⟨e.case_data.pgn, e.case_data.source_addr, e.case_data.priority⟩]
        else acc) acc).length ≤ acc.length + l.countP p := by
  intro l
  induction l with
  | nil => intro acc; simp
  | cons e t ih =>
    intro acc
    simp only [List.foldl_cons, List.countP_cons]
    split
    · next hp =>
      have hp' : p e = true := hp
      split
      · calc _ ≤ acc.length + t.countP p := ih acc
          _ ≤ _ := by simp [hp']; try omega
      · calc _ ≤ (acc ++ [(⟨e.case_data.pgn, e.case_data.source_addr,
              e.case_data.priority⟩ : PGNSA)]).length + t.countP p := ih _
          _ ≤ _ := by simp [hp']; try omega
    · next hp =>
      have hp' : ¬ p e = true := hp
      calc _ ≤ acc.length + t.countP p := ih acc
        _ ≤ _ := by simp [hp']

theorem uniquePairs_length_le (p : ActiveCase → Bool) (l : List ActiveCase) :
    (uniquePairs p l).length ≤ l.countP p := by
  unfold uniquePairs
  have := uniquePairs_go_length p l []
  simpa using this

theorem uniquePairs_go_keeps (p : ActiveCase → Bool) :
    ∀ (l : List ActiveCase) (acc : List PGNSA) (q : PGNSA), q ∈ acc →
      q ∈ (l.foldl (fun acc e =>
        if p e then
          if acc.any (fun q => q.pgn = e.case_data.pgn ∧
              q.source_addr = e.case_data.source_addr) then acc
          else acc ++ [⟨e.case_data.pgn, e.case_data.source_addr, e.case_data.priority⟩]
        else acc) acc) := by
  intro l
  induction l with
  | nil => intro acc q hq; exact hq
  | cons a t ih =>
    intro acc q hq
    simp only [List.foldl_cons]
    split
    · split
      · exact ih acc q hq
      · exact ih _ q (by simp [hq])
    · exact ih acc q hq

theorem uniquePairs_go_mem (p : ActiveCase → Bool) :
    ∀ (l : List ActiveCase) (acc : List PGNSA) (e : ActiveCase),
      e ∈ l → p e = true →
      ∃ q ∈ (l.foldl (fun acc e =>
        if p e then
          if acc.any (fun q => q.pgn = e.case_data.pgn ∧
              q.source_addr = e.case_data.source_addr) then acc
          else acc ++ [⟨e.case_data.pgn, e.case_data.source_addr, e.case_data.priority⟩]
        else acc) acc),
        q.pgn = e.case_data.pgn ∧ q.source_addr = e.case_data.source_addr := by
  intro l
  induction l with
  | nil => intro acc e he; exact absurd he (List.not_mem_nil e)
  | cons a t ih =>
    intro acc e he hp
    simp only [List.foldl_cons]
    rcases List.mem_cons.mp he with rfl | ht
    · -- the element is the head: its identifier is in the accumulator from
      -- here on (either it was already there, or it is appended now)
      rw [if_pos hp]
      by_cases hany : acc.any (fun q => q.pgn = e.case_data.pgn ∧
          q.source_addr = e.case_data.source_addr) = true
      · rw [if_pos hany]
        obtain ⟨q, hq, hqid⟩ := List.any_eq_true.mp hany
        have := uniquePairs_go_keeps p t acc q hq
        simp only [decide_eq_true_eq] at hqid
        exact ⟨q, this, hqid⟩
      · rw [if_neg hany]
        have := uniquePairs_go_keeps p t
          (acc ++ [⟨e.case_data.pgn, e.case_data.source_addr, e.case_data.priority⟩])
          ⟨e.case_data.pgn, e.case_data.source_addr, e.case_data.priority⟩ (by simp)
        exact ⟨_, this, rfl, rfl⟩
    · split
      · split
        · exact ih acc e ht hp
        · exact ih _ e ht hp
      · exact ih acc e ht hp

theorem uniquePairs_mem (p : ActiveCase → Bool) (l : List ActiveCase)
    (e : ActiveCase) (he : e ∈ l) (hp : p e = true) :
    ∃ q ∈ uniquePairs p l,
      q.pgn = e.case_data.pgn ∧ q.source_addr = e.case_data.source_addr :=
  uniquePairs_go_mem p l [] e he hp

/-! ## Exactly-one-clearing-entry counting -/

theorem countP_id_le_one :
    ∀ (ps : List PGNSA), ((ps.map pairId).Nodup) → ∀ (pgn sa : Nat),
      ps.countP (fun q => q.pgn = pgn ∧ q.source_addr = sa) ≤ 1 := by
  intro ps
  induction ps with
  | nil => intro _ pgn sa; simp
  | cons q t ih =>
    intro hnd pgn sa
    simp only [List.map_cons, List.nodup_cons] at hnd
    rw [List.countP_cons]
    by_cases hq : q.pgn = pgn ∧ q.source_addr = sa
    · have ht : t.countP (fun q => decide (q.pgn = pgn ∧ q.source_addr = sa)) = 0 := by
        rw [List.countP_eq_zero]
        intro r hr
        simp only [decide_eq_true_eq]
        rintro ⟨h1, h2⟩
        exact hnd.1 (by
          refine List.mem_map.mpr ⟨r, hr, ?_⟩
          simp [pairId, h1, h2, hq.1, hq.2])
      rw [ht]
      simp [hq.1, hq.2]
    · have ht := ih hnd.2 pgn sa
      have hd : decide (q.pgn = pgn ∧ q.source_addr = sa) = false := by
        simp only [decide_eq_false_iff_not]
        exact hq
      simp only [hd, Bool.false_eq_true, if_false]
      omega

theorem countP_id_pos (ps : List PGNSA) (pgn sa : Nat)
    (h : ∃ q ∈ ps, q.pgn = pgn ∧ q.source_addr = sa) :
    1 ≤ ps.countP (fun q => q.pgn = pgn ∧ q.source_addr = sa) := by
  obtain ⟨q, hq, h1, h2⟩ := h
  show 0 < List.countP (fun q => decide (q.pgn = pgn ∧ q.source_addr = sa)) ps
  rw [List.countP_pos_iff]
  exact ⟨q, hq, by simp [h1, h2]⟩

/-! ## Live-list extension lemmas -/

theorem live_count_succ (s : EngineState) (h : WF s)
    (hlt : s.count < MAX_ACTIVE_CASES) :
    live { s with count := s.count + 1 } =
      live s ++ [s.arr.getD s.count default] := by
  show s.arr.take (s.count + 1) = s.arr.take s.count ++ [s.arr.getD s.count default]
  have hc : s.count < s.arr.length := by rw [h.1]; exact hlt
  rw [List.take_succ]
  congr 1
  rw [List.getD, List.get?_eq_getElem?, List.getElem?_eq_getElem hc]
  rfl

theorem skipStaleFuel_extends :
    ∀ (fuel : Nat) (s : EngineState), WF s →
      ∃ ext, live (skipStaleFuel fuel s) = live s ++ ext ∧
        (∀ x ∈ ext, x.input_num = 22 ∨ x.input_num = 23) ∧
        WF (skipStaleFuel fuel s) ∧
        (skipStaleFuel fuel s).timers = s.timers ∧
        (skipStaleFuel fuel s).arr = s.arr := by
  intro fuel
  induction fuel with
  | zero => intro s h; exact ⟨[], by simp [skipStaleFuel], by simp, h, rfl, rfl⟩
  | succ m ih =>
    intro s h
    unfold skipStaleFuel
    split
    · next hc =>
      have hwf1 : WF { s with count := s.count + 1 } := ⟨h.1, hc.1⟩
      obtain ⟨ext, hlive, hmem, hwf2, htim, harr⟩ := ih _ hwf1
      refine ⟨s.arr.getD s.count default :: ext, ?_, ?_, hwf2, htim, harr⟩
      · rw [hlive, live_count_succ s h hc.1]
        simp
      · intro x hx
        rcases List.mem_cons.mp hx with rfl | hx'
        · exact hc.2.1
        · exact hmem x hx'
    · exact ⟨[], by simp, by simp, h, rfl, rfl⟩

theorem skipStale_extends (s : EngineState) (h : WF s) :
    ∃ ext, live (skipStale s) = live s ++ ext ∧
      (∀ x ∈ ext, x.input_num = 22 ∨ x.input_num = 23) ∧
      WF (skipStale s) ∧ (skipStale s).timers = s.timers :=
  let ⟨ext, h1, h2, h3, h4, _⟩ := skipStaleFuel_extends (MAX_ACTIVE_CASES - s.count) s h
  ⟨ext, h1, h2, h3, h4⟩

theorem appendCase_extends (s : EngineState) (e : ActiveCase) (h : WF s) :
    ∃ ext, live (appendCase s e) = live s ++ ext ∧
      (∀ x ∈ ext, x = e) ∧ WF (appendCase s e) := by
  by_cases hlt : s.count < MAX_ACTIVE_CASES
  · exact ⟨[e], live_appendCase s e h hlt, by simp, WF_appendCase s e h⟩
  · rw [appendCase_full s e (Nat.le_of_not_lt hlt)]
    exact ⟨[], by simp, by simp, h⟩

theorem loadOffCase_extends (env : Env) (inp : Nat) (s : EngineState) (c : Nat)
    (h : WF s) :
    ∃ ext, live (loadOffCase env inp s c) = live s ++ ext ∧
      (∀ x ∈ ext, (x.input_num = 22 ∨ x.input_num = 23) ∨
        (x.input_num = inp ∧ x.is_on_case = false ∧
         x.needs_removal_after_send = true)) ∧
      WF (loadOffCase env inp s c) ∧
      (loadOffCase env inp s c).timers = s.timers := by
  unfold loadOffCase
  split
  · exact ⟨[], by simp, by simp, h, rfl⟩
  · split
    · exact ⟨[], by simp, by simp, h, rfl⟩
    · split
      · exact ⟨[], by simp, by simp, h, rfl⟩
      · next cd _ =>
        obtain ⟨ext1, hl1, hm1, hwf1, ht1⟩ := skipStale_extends s h
        obtain ⟨ext2, hl2, hm2, hwf2⟩ :=
          appendCase_extends (skipStale s) (mkLoadedEntry inp c false true cd) hwf1
        refine ⟨ext1 ++ ext2, ?_, ?_, hwf2, ?_⟩
        · rw [hl2, hl1, List.append_assoc]
        · intro x hx
          rcases List.mem_append.mp hx with hx1 | hx2
          · exact Or.inl (hm1 x hx1)
          · rw [hm2 x hx2]; exact Or.inr ⟨rfl, rfl, rfl⟩
        · rw [timers_appendCase, ht1]

theorem loadOff_fold_extends (env : Env) (inp : Nat) :
    ∀ (l : List Nat) (s : EngineState), WF s →
      ∃ ext, live (l.foldl (loadOffCase env inp) s) = live s ++ ext ∧
        (∀ x ∈ ext, (x.input_num = 22 ∨ x.input_num = 23) ∨
          (x.input_num = inp ∧ x.is_on_case = false ∧
           x.needs_removal_after_send = true)) ∧
        WF (l.foldl (loadOffCase env inp) s) ∧
        (l.foldl (loadOffCase env inp) s).timers = s.timers := by
  intro l
  induction l with
  | nil => intro s h; exact ⟨[], by simp, by simp, h, rfl⟩
  | cons a t ih =>
    intro s h
    obtain ⟨ext1, hl1, hm1, hwf1, ht1⟩ := loadOffCase_extends env inp s a h
    obtain ⟨ext2, hl2, hm2, hwf2, ht2⟩ := ih (loadOffCase env inp s a) hwf1
    refine ⟨ext1 ++ ext2, ?_, ?_, hwf2, ?_⟩
    · simp only [List.foldl_cons]
      rw [hl2, hl1, List.append_assoc]
    · intro x hx
      rcases List.mem_append.mp hx with hx1 | hx2
      · exact hm1 x hx1
      · exact hm2 x hx2
    · simp only [List.foldl_cons]
      rw [ht2, ht1]

theorem loadOnCase_extends (env : Env) (inp : Nat)
    (st : EngineState × (Bool × Nat × Nat)) (c : Nat) (h : WF st.1) :
    ∃ ext, live (loadOnCase env inp st c).1 = live st.1 ++ ext ∧
      (∀ x ∈ ext, x.input_num = inp ∧ x.is_on_case = true ∧
        x.needs_removal_after_send = false) ∧
      WF (loadOnCase env inp st c).1 ∧
      (loadOnCase env inp st c).1.timers = st.1.timers := by
  unfold loadOnCase
  split
  · exact ⟨[], by simp, by simp, h, rfl⟩
  · split
    · exact ⟨[], by simp, by simp, h, rfl⟩
    · split
      · exact ⟨[], by simp, by simp, h, rfl⟩
      · next cd _ =>
        obtain ⟨ext, hl, hm, hwf⟩ :=
          appendCase_extends st.1 (mkLoadedEntry inp c true false cd) h
        refine ⟨ext, hl, ?_, hwf, timers_appendCase _ _⟩
        intro x hx
        rw [hm x hx]
        exact ⟨rfl, rfl, rfl⟩

theorem loadOn_fold_extends (env : Env) (inp : Nat) :
    ∀ (l : List Nat) (st : EngineState × (Bool × Nat × Nat)), WF st.1 →
      ∃ ext, live (l.foldl (loadOnCase env inp) st).1 = live st.1 ++ ext ∧
        (∀ x ∈ ext, x.input_num = inp ∧ x.is_on_case = true ∧
          x.needs_removal_after_send = false) ∧
        WF (l.foldl (loadOnCase env inp) st).1 ∧
        (l.foldl (loadOnCase env inp) st).1.timers = st.1.timers := by
  intro l
  induction l with
  | nil => intro st h; exact ⟨[], by simp, by simp, h, rfl⟩
  | cons a t ih =>
    intro st h
    obtain ⟨ext1, hl1, hm1, hwf1, ht1⟩ := loadOnCase_extends env inp st a h
    obtain ⟨ext2, hl2, hm2, hwf2, ht2⟩ := ih (loadOnCase env inp st a) hwf1
    refine ⟨ext1 ++ ext2, ?_, ?_, hwf2, ?_⟩
    · simp only [List.foldl_cons]
      rw [hl2, hl1, List.append_assoc]
    · intro x hx
      rcases List.mem_append.mp hx with hx1 | hx2
      · exact hm1 x hx1
      · exact hm2 x hx2
    · simp only [List.foldl_cons]
      rw [ht2, ht1]

theorem live_foldl_appendCase {α : Type} (g : α → ActiveCase) :
    ∀ (l : List α) (s : EngineState), WF s →
      s.count + l.length ≤ MAX_ACTIVE_CASES →
      live ((l.map g).foldl appendCase s) = live s ++ l.map g ∧
      WF ((l.map g).foldl appendCase s) ∧
      ((l.map g).foldl appendCase s).count = s.count + l.length ∧
      ((l.map g).foldl appendCase s).timers = s.timers := by
  intro l
  induction l with
  | nil => intro s h _; exact ⟨by simp, h, by simp, rfl⟩
  | cons a t ih =>
    intro s h hroom
    have hlt : s.count < MAX_ACTIVE_CASES := by
      simp only [List.length_cons] at hroom; omega
    have h1 : WF (appendCase s (g a)) := WF_appendCase s (g a) h
    have hc1 : (appendCase s (g a)).count = s.count + 1 := by
      unfold appendCase; rw [if_pos hlt]
    obtain ⟨hl2, hwf2, hc2, ht2⟩ := ih (appendCase s (g a)) h1 (by
      rw [hc1]; simp only [List.length_cons] at hroom; omega)
    refine ⟨?_, hwf2, ?_, ?_⟩
    · simp only [List.map_cons, List.foldl_cons]
      rw [hl2, live_appendCase s (g a) h hlt]
      simp
    · simp only [List.map_cons, List.foldl_cons]
      rw [hc2, hc1]
      simp only [List.length_cons]
      omega
    · simp only [List.map_cons, List.foldl_cons]
      rw [ht2, timers_appendCase]

theorem live_insertClearings (inp : Nat) (ps : List PGNSA) (s : EngineState)
    (h : WF s) (hroom : s.count + ps.length ≤ MAX_ACTIVE_CASES) :
    live (insertClearings inp ps s) =
      live s ++ ps.enum.map (fun ic => mkClearingEntry inp ic.1 ic.2) ∧
    WF (insertClearings inp ps s) ∧
    (insertClearings inp ps s).timers = s.timers := by
  unfold insertClearings
  obtain ⟨h1, h2, _, h4⟩ := live_foldl_appendCase
    (fun ic => mkClearingEntry inp ic.1 ic.2) ps.enum s h
    (by rw [List.enum_length]; exact hroom)
  exact ⟨h1, h2, h4⟩

/-! ## Input deactivation (claim C3) -/

/-- Inputs with OFF cases are never IN23/IN24 (table fact). -/
theorem off_count_not_2223 :
    ∀ j, j < TOTAL_INPUTS → input_off_case_count.getD j 0 ≠ 0 →
      j ≠ 22 ∧ j ≠ 23 := by decide

theorem countP_congr_eq {α : Type} {p q : α → Bool} :
    ∀ l : List α, (∀ a ∈ l, p a = q a) → l.countP p = l.countP q := by
  intro l
  induction l with
  | nil => intro _; rfl
  | cons a t ih =>
    intro h
    rw [List.countP_cons, List.countP_cons, h a (by simp),
      ih (fun x hx => h x (by simp [hx]))]

theorem ext_nil_of_append_self {α : Type} (l ext : List α)
    (h : l = l ++ ext) : ext = [] := by
  have h' : l ++ [] = l ++ ext := by simpa using h
  have := List.append_cancel_left h'
  exact this.symm

/-- Claim C3: on deactivation, the handler disarms the input's pattern timer,
removes every previous entry of that input, and inserts exactly one one-shot
all-zero clearing entry per unique identifier captured from the input's
previously active ON entries (a shared identifier yields one entry, not two);
the only other additions are the input's one-shot OFF-case entries (and, via
the legacy skip loop, resurrected IN23/IN24 slots, which never belong to this
input).  The hypothesis `hcap` states that the unique captured identifiers
fit in the 8-pair capture buffer, which holds whenever the input has at most
8 distinct ON identifiers (the ON-case table allows at most 6 per input). -/
theorem claim_C3_deactivation_clearing (env : Env) (i : Nat) (s : EngineState)
    (hwf : WF s) (hin : i < TOTAL_INPUTS)
    (hcap : capturePairs MAX_ON_CASES_PER_INPUT (isOnFor i) (live s) =
      uniquePairs (isOnFor i) (live s)) :
    (EEPROM_HandleInputChange env i false s).timers i =
      disarmTimer (s.timers i) ∧
    (∃ offExt,
      live (EEPROM_HandleInputChange env i false s) =
        (live s).filter (keepOther i) ++
        (uniquePairs (isOnFor i) (live s)).enum.map
          (fun ic => mkClearingEntry i ic.1 ic.2) ++ offExt ∧
      ∀ x ∈ offExt, x.input_num = i →
        x.is_on_case = false ∧ x.needs_removal_after_send = true) ∧
    (∀ e ∈ live s, isOnFor i e = true →
      (uniquePairs (isOnFor i) (live s)).countP
        (fun q => q.pgn = e.case_data.pgn ∧
          q.source_addr = e.case_data.source_addr) = 1) := by
  have hresult : EEPROM_HandleInputChange env i false s =
      (List.range (min (input_off_case_count.getD i 0) MAX_OFF_CASES_PER_INPUT)).foldl
        (loadOffCase env i)
        (insertClearings i (uniquePairs (isOnFor i) (live s))
          (compactRemove (keepOther i) (setTimerAt s i (disarmTimer (s.timers i))))) := by
    unfold EEPROM_HandleInputChange
    rw [if_neg (Nat.not_le.mpr hin), if_neg Bool.false_ne_true]
    dsimp only
    rw [show live (setTimerAt s i (disarmTimer (s.timers i))) = live s from rfl, hcap]
  have hwfsd : WF (setTimerAt s i (disarmTimer (s.timers i))) := hwf
  have hwf1 : WF (compactRemove (keepOther i) (setTimerAt s i (disarmTimer (s.timers i)))) :=
    WF_compactRemove _ _ hwfsd
  have hlive1 : live (compactRemove (keepOther i) (setTimerAt s i (disarmTimer (s.timers i)))) =
      (live s).filter (keepOther i) := live_compactRemove _ _
  -- capacity: the removed entries make room for the clearing entries
  have hc64 : s.count ≤ MAX_ACTIVE_CASES := hwf.2
  have hlenlive : (live s).length = s.count := length_live s hwf
  have hsplit : (live s).length =
      (live s).countP (isFor i) + (live s).countP (keepOther i) := by
    rw [List.length_eq_countP_add_countP (isFor i) (live s)]
    congr 1
    apply countP_congr_eq
    intro a _
    by_cases h : a.input_num = i <;> simp [isFor, keepOther, h]
  have hmono : (live s).countP (isOnFor i) ≤ (live s).countP (isFor i) := by
    apply List.countP_mono_left
    intro e _ h
    exact Bool.and_eq_true_iff.mp h |>.1
  have hpslen : (uniquePairs (isOnFor i) (live s)).length ≤
      (live s).countP (isOnFor i) := uniquePairs_length_le _ _
  have hkept : ((live s).filter (keepOther i)).length =
      (live s).countP (keepOther i) := by
    rw [List.countP_eq_length_filter]
  have hcount1 : (compactRemove (keepOther i) (setTimerAt s i (disarmTimer (s.timers i)))).count =
      ((live s).filter (keepOther i)).length := rfl
  have hroom : (compactRemove (keepOther i) (setTimerAt s i (disarmTimer (s.timers i)))).count +
      (uniquePairs (isOnFor i) (live s)).length ≤ MAX_ACTIVE_CASES := by
    rw [hcount1, hkept]
    omega
  obtain ⟨hlive2, hwf2, htim2⟩ :=
    live_insertClearings i (uniquePairs (isOnFor i) (live s)) _ hwf1 hroom
  obtain ⟨ext, hlive3, hext, hwf3, htim3⟩ :=
    loadOff_fold_extends env i
      (List.range (min (input_off_case_count.getD i 0) MAX_OFF_CASES_PER_INPUT)) _ hwf2
  refine ⟨?_, ⟨ext, ?_, ?_⟩, ?_⟩
  · rw [hresult, htim3, htim2, timers_compactRemove]
    simp [setTimerAt]
  · rw [hresult, hlive3, hlive2, hlive1]
  · intro x hx hxi
    rcases hext x hx with h2223 | hgood
    · -- a resurrected IN23/IN24 slot cannot belong to this input: inputs 22
      -- and 23 have no OFF cases, so the OFF-load loop is empty for them
      exfalso
      have hoff0 : input_off_case_count.getD i 0 = 0 := by
        rcases h2223 with h | h <;> rw [← hxi, h] <;> decide
      have hnil : (List.range (min (input_off_case_count.getD i 0)
          MAX_OFF_CASES_PER_INPUT)) = [] := by
        rw [hoff0]
        decide
      rw [hnil] at hlive3
      simp only [List.foldl_nil] at hlive3
      have : ext = [] := ext_nil_of_append_self _ _ hlive3
      rw [this] at hx
      exact List.not_mem_nil x hx
    · exact ⟨hgood.2.1, hgood.2.2⟩
  · intro e he hone
    apply le_antisymm
    · exact countP_id_le_one _ (uniquePairs_nodup _ _) _ _
    · exact countP_id_pos _ _ _ (by
        obtain ⟨q, hq, h1, h2⟩ := uniquePairs_mem (isOnFor i) (live s) e he hone
        exact ⟨q, hq, h1, h2⟩)

/-- C3 scenario: two active ON entries of input 2 sharing identifier
(0xFF01, 0x1E). -/
def c3e1 : ActiveCase :=
  { input_num := 2, case_num := 0, is_on_case := true,
    needs_removal_after_send := false, case_data := c4Case }

def c3e2 : ActiveCase := { c3e1 with case_num := 1 }

def c3State : EngineState :=
  { arr := [c3e1, c3e2] ++ List.replicate 62 default
    count := 2
    timers := fun _ => default }

/-- Witness for C3: deactivating input 2 with two previously active ON
entries sharing one identifier. -/
theorem claim_C3_witness :
    (EEPROM_HandleInputChange envAllOff 2 false c3State).timers 2 =
      disarmTimer (c3State.timers 2) ∧
    (∃ offExt,
      live (EEPROM_HandleInputChange envAllOff 2 false c3State) =
        (live c3State).filter (keepOther 2) ++
        (uniquePairs (isOnFor 2) (live c3State)).enum.map
          (fun ic => mkClearingEntry 2 ic.1 ic.2) ++ offExt ∧
      ∀ x ∈ offExt, x.input_num = 2 →
        x.is_on_case = false ∧ x.needs_removal_after_send = true) ∧
    (∀ e ∈ live c3State, isOnFor 2 e = true →
      (uniquePairs (isOnFor 2) (live c3State)).countP
        (fun q => q.pgn = e.case_data.pgn ∧
          q.source_addr = e.case_data.source_addr) = 1) :=
  claim_C3_deactivation_clearing envAllOff 2 c3State
    ⟨by decide, by decide⟩ (by decide) (by decide)

/-! ## Input activation (claim C6) -/

/-- C6 scenario: input 0 already has an active entry with identifier
(0xFF01, 0x1E), and input 0's first ON case in the EEPROM re-creates that
same identifier. -/
def c6e : ActiveCase :=
  { input_num := 0, case_num := 0, is_on_case := true,
    needs_removal_after_send := false, case_data := c9Case }

def c6State : EngineState :=
  { arr := [c6e] ++ List.replicate 63 default
    count := 1
    timers := fun _ => default }

/-- Claim C6 counterexample: activating input 0 re-creates identifier
(0xFF01, 0x1E) through its loaded first ON case (second conjunct: one
persistent ON entry with that identifier), yet a one-shot all-zero clearing
entry for that same identifier is inserted anyway (first conjunct) — the
claim requires no clearing entry for a re-created pair. -/
theorem claim_C6_counterexample :
    (live (EEPROM_HandleInputChange c9Env 0 true c6State)).countP
      (fun e => e.needs_removal_after_send &&
        decide (e.case_data.pgn = 0xFF01) &&
        decide (e.case_data.source_addr = 0x1E) &&
        decide (e.case_data.data = zeros8)) = 1 ∧
    (live (EEPROM_HandleInputChange c9Env 0 true c6State)).countP
      (fun e => e.is_on_case && !e.needs_removal_after_send &&
        decide (e.case_data.pgn = 0xFF01) &&
        decide (e.case_data.source_addr = 0x1E)) = 1 := by
  refine ⟨?_, ?_⟩ <;> decide

/-- Claim C6 (amended): on activation, after capturing the identifier pairs
of all current entries of this input and removing those entries, a one-shot
all-zero clearing entry is inserted for every captured pair — unconditionally,
including pairs whose identifier is re-created by the ON cases loaded in the
same call (the handler performs no re-creation check); the only other
additions are the loaded persistent ON entries of this input.  `hcap` states
that the captured set fits in the 8-pair capture buffer. -/
theorem claim_C6_activation_clearing_amended (env : Env) (i : Nat)
    (s : EngineState) (hwf : WF s) (hin : i < TOTAL_INPUTS)
    (hcap : capturePairs MAX_ON_CASES_PER_INPUT (isFor i) (live s) =
      uniquePairs (isFor i) (live s)) :
    (∃ onExt,
      live (EEPROM_HandleInputChange env i true s) =
        (live s).filter (keepOther i) ++
        (uniquePairs (isFor i) (live s)).enum.map
          (fun ic => mkClearingEntry i ic.1 ic.2) ++ onExt ∧
      ∀ x ∈ onExt, x.input_num = i ∧ x.is_on_case = true ∧
        x.needs_removal_after_send = false) ∧
    (∀ e ∈ live s, isFor i e = true →
      (uniquePairs (isFor i) (live s)).countP
        (fun q => q.pgn = e.case_data.pgn ∧
          q.source_addr = e.case_data.source_addr) = 1) := by
  have hresult : live (EEPROM_HandleInputChange env i true s) =
      live ((List.range (min (input_on_case_count.getD i 0) MAX_ON_CASES_PER_INPUT)).foldl
        (loadOnCase env i)
        (insertClearings i (uniquePairs (isFor i) (live s))
          (compactRemove (keepOther i) s), (false, 0, 0))).1 := by
    unfold EEPROM_HandleInputChange
    rw [if_neg (Nat.not_le.mpr hin), if_pos rfl]
    dsimp only
    rw [hcap]
    split <;> rfl
  have hwf1 : WF (compactRemove (keepOther i) s) := WF_compactRemove _ _ hwf
  have hlive1 : live (compactRemove (keepOther i) s) =
      (live s).filter (keepOther i) := live_compactRemove _ _
  have hc64 : s.count ≤ MAX_ACTIVE_CASES := hwf.2
  have hlenlive : (live s).length = s.count := length_live s hwf
  have hsplit : (live s).length =
      (live s).countP (isFor i) + (live s).countP (keepOther i) := by
    rw [List.length_eq_countP_add_countP (isFor i) (live s)]
    congr 1
    apply countP_congr_eq
    intro a _
    by_cases h : a.input_num = i <;> simp [isFor, keepOther, h]
  have hpslen : (uniquePairs (isFor i) (live s)).length ≤
      (live s).countP (isFor i) := uniquePairs_length_le _ _
  have hkept : ((live s).filter (keepOther i)).length =
      (live s).countP (keepOther i) := by
    rw [List.countP_eq_length_filter]
  have hcount1 : (compactRemove (keepOther i) s).count =
      ((live s).filter (keepOther i)).length := rfl
  have hroom : (compactRemove (keepOther i) s).count +
      (uniquePairs (isFor i) (live s)).length ≤ MAX_ACTIVE_CASES := by
    rw [hcount1, hkept]
    omega
  obtain ⟨hlive2, hwf2, _⟩ :=
    live_insertClearings i (uniquePairs (isFor i) (live s)) _ hwf1 hroom
  obtain ⟨ext, hlive3, hext, _, _⟩ :=
    loadOn_fold_extends env i
      (List.range (min (input_on_case_count.getD i 0) MAX_ON_CASES_PER_INPUT))
      (insertClearings i (uniquePairs (isFor i) (live s))
        (compactRemove (keepOther i) s), (false, 0, 0)) hwf2
  refine ⟨⟨ext, ?_, hext⟩, ?_⟩
  · rw [hresult, hlive3]
    dsimp only
    rw [hlive2, hlive1]
  · intro e he hone
    apply le_antisymm
    · exact countP_id_le_one _ (uniquePairs_nodup _ _) _ _
    · exact countP_id_pos _ _ _ (by
        obtain ⟨q, hq, h1, h2⟩ := uniquePairs_mem (isFor i) (live s) e he hone
        exact ⟨q, hq, h1, h2⟩)

/-- Witness for C6 (amended): the theorem applied to the C6 scenario. -/
theorem claim_C6_witness :
    (∃ onExt,
      live (EEPROM_HandleInputChange c9Env 0 true c6State) =
        (live c6State).filter (keepOther 0) ++
        (uniquePairs (isFor 0) (live c6State)).enum.map
          (fun ic => mkClearingEntry 0 ic.1 ic.2) ++ onExt ∧
      ∀ x ∈ onExt, x.input_num = 0 ∧ x.is_on_case = true ∧
        x.needs_removal_after_send = false) ∧
    (∀ e ∈ live c6State, isFor 0 e = true →
      (uniquePairs (isFor 0) (live c6State)).countP
        (fun q => q.pgn = e.case_data.pgn ∧
          q.source_addr = e.case_data.source_addr) = 1) :=
  claim_C6_activation_clearing_amended c9Env 0 c6State
    ⟨by decide, by decide⟩ (by decide) (by decide)

/-! ## Aggregation: specification-side description of the merge passes -/

/-- The bucketing identifier of an active entry. -/
def msgId (e : ActiveCase) : Nat × Nat := (e.case_data.pgn, e.case_data.source_addr)

/-- Identifiers of contributing entries in order of first contribution. -/
def firstIds (env : Env) (l : List ActiveCase) : List (Nat × Nat) :=
  l.foldl (fun acc e =>
    if contributes env e then
      if msgId e ∈ acc then acc else acc ++ [msgId e]
    else acc) []

/-- All contributing entries with a given identifier, in list order. -/
def contributorsOf (env : Env) (l : List ActiveCase) (id : Nat × Nat) :
    List ActiveCase :=
  l.filter (fun e => contributes env e && decide (msgId e = id))

/-- The PASS-2 merge step applied to a bucket. -/
def mergeMsg (s : EngineState) (masks : List PatternMaskEntry) (e : ActiveCase)
    (m : AggregatedMessage) : AggregatedMessage :=
  { m with data := or8 m.data (effectiveData s masks e),
           has_pattern := m.has_pattern || hasPatternOf s e }

/-- The bucket created by the first contributor of an identifier. -/
def newMsg (s : EngineState) (masks : List PatternMaskEntry) (id : Nat × Nat)
    (e : ActiveCase) : AggregatedMessage :=
  { priority := e.case_data.priority
    pgn := id.1
    source_addr := id.2
    data := effectiveData s masks e
    valid := true
    has_pattern := hasPatternOf s e
    data_changed := false }

/-- The bucket an identifier ends up with: seeded by its first contributor,
then merged with every later contributor in order. -/
def bucketOf (env : Env) (s : EngineState) (masks : List PatternMaskEntry)
    (l : List ActiveCase) (id : Nat × Nat) : AggregatedMessage :=
  match contributorsOf env l id with
  | [] => default
  | c :: cs => cs.foldl (fun m e => mergeMsg s masks e m) (newMsg s masks id c)

theorem firstIds_concat (env : Env) (l : List ActiveCase) (a : ActiveCase) :
    firstIds env (l ++ [a]) =
      if contributes env a then
        if msgId a ∈ firstIds env l then firstIds env l
        else firstIds env l ++ [msgId a]
      else firstIds env l := by
  unfold firstIds
  rw [List.foldl_append]
  rfl

theorem contributorsOf_concat (env : Env) (l : List ActiveCase)
    (a : ActiveCase) (id : Nat × Nat) :
    contributorsOf env (l ++ [a]) id =
      contributorsOf env l id ++
        (if contributes env a && decide (msgId a = id) then [a] else []) := by
  unfold contributorsOf
  rw [List.filter_append]
  congr 1
  simp only [List.filter_cons, List.filter_nil]

theorem nodup_firstIds (env : Env) :
    ∀ l : List ActiveCase, (firstIds env l).Nodup := by
  intro l
  induction l using List.reverseRecOn with
  | nil => simp [firstIds]
  | append_singleton l a ih =>
    rw [firstIds_concat]
    split
    · split
      · exact ih
      · next hmem =>
        rw [List.nodup_append]
        exact ⟨ih, List.nodup_singleton _, by
          intro x hx
          simp only [List.mem_singleton]
          rintro rfl
          exact hmem hx⟩
    · exact ih

theorem mem_firstIds (env : Env) :
    ∀ (l : List ActiveCase) (id : Nat × Nat),
      id ∈ firstIds env l ↔ ∃ e ∈ l, contributes env e = true ∧ msgId e = id := by
  intro l
  induction l using List.reverseRecOn with
  | nil => simp [firstIds]
  | append_singleton l a ih =>
    intro id
    rw [firstIds_concat]
    constructor
    · intro h
      split at h
      · next hca =>
        split at h
        · obtain ⟨e, he, h1, h2⟩ := (ih id).mp h
          exact ⟨e, by simp [he], h1, h2⟩
        · rcases List.mem_append.mp h with h1 | h2
          · obtain ⟨e, he, hc, hm⟩ := (ih id).mp h1
            exact ⟨e, by simp [he], hc, hm⟩
          · exact ⟨a, by simp, hca, (List.mem_singleton.mp h2).symm⟩
      · obtain ⟨e, he, h1, h2⟩ := (ih id).mp h
        exact ⟨e, by simp [he], h1, h2⟩
    · rintro ⟨e, he, hc, hm⟩
      rcases List.mem_append.mp he with he' | he''
      · have hin : id ∈ firstIds env l := (ih id).mpr ⟨e, he', hc, hm⟩
        split
        · split
          · exact hin
          · exact List.mem_append_left _ hin
        · exact hin
      · have hea : e = a := List.mem_singleton.mp he''
        subst hea
        subst hm
        rw [if_pos hc]
        split
        · next hmem => exact hmem
        · exact List.mem_append_right _ (by simp)

theorem foldl_mergeMsg_fields (s : EngineState) (masks : List PatternMaskEntry) :
    ∀ (cs : List ActiveCase) (m : AggregatedMessage),
      ((cs.foldl (fun m e => mergeMsg s masks e m) m).pgn = m.pgn) ∧
      ((cs.foldl (fun m e => mergeMsg s masks e m) m).source_addr = m.source_addr) ∧
      ((cs.foldl (fun m e => mergeMsg s masks e m) m).valid = m.valid) ∧
      ((cs.foldl (fun m e => mergeMsg s masks e m) m).priority = m.priority) ∧
      ((cs.foldl (fun m e => mergeMsg s masks e m) m).data_changed = m.data_changed) := by
  intro cs
  induction cs with
  | nil => intro m; exact ⟨rfl, rfl, rfl, rfl, rfl⟩
  | cons c t ih =>
    intro m
    simpa using ih (mergeMsg s masks c m)

theorem foldl_mergeMsg_data (s : EngineState) (masks : List PatternMaskEntry) :
    ∀ (cs : List ActiveCase) (m : AggregatedMessage),
      (cs.foldl (fun m e => mergeMsg s masks e m) m).data =
        cs.foldl (fun d e => or8 d (effectiveData s masks e)) m.data := by
  intro cs
  induction cs with
  | nil => intro m; rfl
  | cons c t ih =>
    intro m
    simpa using ih (mergeMsg s masks c m)

theorem foldl_mergeMsg_pattern (s : EngineState) (masks : List PatternMaskEntry) :
    ∀ (cs : List ActiveCase) (m : AggregatedMessage),
      (cs.foldl (fun m e => mergeMsg s masks e m) m).has_pattern =
        (m.has_pattern || cs.any (hasPatternOf s)) := by
  intro cs
  induction cs with
  | nil => intro m; simp
  | cons c t ih =>
    intro m
    simp only [List.foldl_cons, List.any_cons]
    rw [ih (mergeMsg s masks c m)]
    have hm : (mergeMsg s masks c m).has_pattern =
        (m.has_pattern || hasPatternOf s c) := rfl
    rw [hm, Bool.or_assoc]

theorem bucketOf_fields (env : Env) (s : EngineState)
    (masks : List PatternMaskEntry) (l : List ActiveCase) (id : Nat × Nat)
    (h : contributorsOf env l id ≠ []) :
    (bucketOf env s masks l id).pgn = id.1 ∧
    (bucketOf env s masks l id).source_addr = id.2 := by
  unfold bucketOf
  split
  · next hnil => exact absurd hnil h
  · next c cs _ =>
    obtain ⟨h1, h2, _, _, _⟩ := foldl_mergeMsg_fields s masks cs (newMsg s masks id c)
    exact ⟨h1, h2⟩

theorem bucketOf_concat_other (env : Env) (s : EngineState)
    (masks : List PatternMaskEntry) (l : List ActiveCase) (a : ActiveCase)
    (id : Nat × Nat) (h : ¬(contributes env a = true ∧ msgId a = id)) :
    bucketOf env s masks (l ++ [a]) id = bucketOf env s masks l id := by
  unfold bucketOf
  rw [contributorsOf_concat]
  have : (if contributes env a && decide (msgId a = id) then [a] else []) = [] := by
    rw [if_neg]
    simp only [Bool.and_eq_true, decide_eq_true_eq]
    exact h
  rw [this, List.append_nil]

theorem bucketOf_concat_merge (env : Env) (s : EngineState)
    (masks : List PatternMaskEntry) (l : List ActiveCase) (a : ActiveCase)
    (hca : contributes env a = true)
    (hne : contributorsOf env l (msgId a) ≠ []) :
    bucketOf env s masks (l ++ [a]) (msgId a) =
      mergeMsg s masks a (bucketOf env s masks l (msgId a)) := by
  unfold bucketOf
  rw [contributorsOf_concat]
  have hcond : (contributes env a && decide (msgId a = msgId a)) = true := by
    rw [hca]; simp
  rw [if_pos hcond]
  rcases hcs : contributorsOf env l (msgId a) with _ | ⟨c, cs⟩
  · exact absurd hcs hne
  · simp only [List.cons_append, List.foldl_append, List.foldl_cons, List.foldl_nil]

theorem bucketOf_concat_new (env : Env) (s : EngineState)
    (masks : List PatternMaskEntry) (l : List ActiveCase) (a : ActiveCase)
    (hca : contributes env a = true)
    (hnil : contributorsOf env l (msgId a) = []) :
    bucketOf env s masks (l ++ [a]) (msgId a) = newMsg s masks (msgId a) a := by
  unfold bucketOf
  rw [contributorsOf_concat, hnil]
  have hcond : (contributes env a && decide (msgId a = msgId a)) = true := by
    rw [hca]; simp
  rw [if_pos hcond]
  rfl

theorem mergeFirst_map_buckets (f : AggregatedMessage → AggregatedMessage)
    (pg sa : Nat) :
    ∀ (ids : List (Nat × Nat)) (B : Nat × Nat → AggregatedMessage),
      (∀ j ∈ ids, (B j).pgn = j.1 ∧ (B j).source_addr = j.2) → ids.Nodup →
      mergeFirst (fun m => decide (m.pgn = pg) && decide (m.source_addr = sa))
          f (ids.map B) =
        if (pg, sa) ∈ ids then
          some (ids.map (fun j => if j = (pg, sa) then f (B (pg, sa)) else B j))
        else none := by
  intro ids
  induction ids with
  | nil => intro B _ _; simp [mergeFirst]
  | cons j t ih =>
    intro B hB hnd
    simp only [List.map_cons, mergeFirst]
    have hBj := hB j (by simp)
    by_cases hj : j = (pg, sa)
    · subst hj
      rw [if_pos (by simp [hBj.1, hBj.2])]
      rw [if_pos (by simp)]
      congr 1
      simp only [List.map_cons, if_pos rfl]
      congr 1
      apply List.map_congr_left
      intro x hx
      rw [if_neg]
      rintro rfl
      exact (List.nodup_cons.mp hnd).1 hx
    · have hpj : (decide ((B j).pgn = pg) && decide ((B j).source_addr = sa)) = false := by
        rw [hBj.1, hBj.2]
        by_cases h1 : j.1 = pg
        · by_cases h2 : j.2 = sa
          · exact absurd (Prod.ext h1 h2) hj
          · simp [h2]
        · simp [h1]
      rw [if_neg (by rw [hpj]; exact Bool.false_ne_true)]
      rw [ih B (fun x hx => hB x (by simp [hx])) (List.nodup_cons.mp hnd).2]
      by_cases hid : (pg, sa) ∈ t
      · rw [if_pos hid, if_pos (by simp [hid])]
        simp only [Option.map_some', List.map_cons]
        rw [if_neg hj]
      · rw [if_neg hid, if_neg (by
          simp only [List.mem_cons, not_or]
          exact ⟨fun h => hj h.symm, hid⟩)]
        rfl

theorem contributorsOf_ne_nil (env : Env) (l : List ActiveCase)
    (id : Nat × Nat) (hid : id ∈ firstIds env l) :
    contributorsOf env l id ≠ [] := by
  obtain ⟨e, he, hc, hm⟩ := (mem_firstIds env l id).mp hid
  intro hnil
  have : e ∈ contributorsOf env l id :=
    List.mem_filter.mpr ⟨he, by simp [hc, hm]⟩
  rw [hnil] at this
  exact List.not_mem_nil _ this

theorem contributorsOf_eq_nil (env : Env) (l : List ActiveCase)
    (id : Nat × Nat) (hid : id ∉ firstIds env l) :
    contributorsOf env l id = [] := by
  rcases hcs : contributorsOf env l id with _ | ⟨c, cs⟩
  · rfl
  · exfalso
    have hc : c ∈ contributorsOf env l id := by rw [hcs]; simp
    obtain ⟨hcl, hcp⟩ := List.mem_filter.mp hc
    simp only [Bool.and_eq_true, decide_eq_true_eq] at hcp
    exact hid ((mem_firstIds env l id).mpr ⟨c, hcl, hcp.1, hcp.2⟩)

theorem processEntry_skip (env : Env) (s : EngineState)
    (masks : List PatternMaskEntry) (maxm : Nat)
    (msgs : List AggregatedMessage) (e : ActiveCase)
    (hc : ¬ contributes env e = true) :
    processEntry env s masks maxm msgs e = msgs := by
  unfold processEntry
  rw [if_neg hc]

theorem processEntry_merge (env : Env) (s : EngineState)
    (masks : List PatternMaskEntry) (maxm : Nat)
    (msgs msgs' : List AggregatedMessage) (e : ActiveCase)
    (hc : contributes env e = true)
    (hm : mergeFirst
      (fun m => decide (m.pgn = e.case_data.pgn) &&
                decide (m.source_addr = e.case_data.source_addr))
      (fun m => { m with data := or8 m.data (effectiveData s masks e),
                         has_pattern := m.has_pattern || hasPatternOf s e })
      msgs = some msgs') :
    processEntry env s masks maxm msgs e = msgs' := by
  unfold processEntry
  rw [if_pos hc]
  dsimp only
  rw [hm]

theorem processEntry_create (env : Env) (s : EngineState)
    (masks : List PatternMaskEntry) (maxm : Nat)
    (msgs : List AggregatedMessage) (e : ActiveCase)
    (hc : contributes env e = true)
    (hm : mergeFirst
      (fun m => decide (m.pgn = e.case_data.pgn) &&
                decide (m.source_addr = e.case_data.source_addr))
      (fun m => { m with data := or8 m.data (effectiveData s masks e),
                         has_pattern := m.has_pattern || hasPatternOf s e })
      msgs = none)
    (hlen : msgs.length < maxm) :
    processEntry env s masks maxm msgs e =
      msgs ++ [{ priority := e.case_data.priority
                 pgn := e.case_data.pgn
                 source_addr := e.case_data.source_addr
                 data := effectiveData s masks e
                 valid := true
                 has_pattern := hasPatternOf s e
                 data_changed := false }] := by
  unfold processEntry
  rw [if_pos hc]
  dsimp only
  rw [hm, if_pos hlen]

theorem processEntry_drop (env : Env) (s : EngineState)
    (masks : List PatternMaskEntry) (maxm : Nat)
    (msgs : List AggregatedMessage) (e : ActiveCase)
    (hc : contributes env e = true)
    (hm : mergeFirst
      (fun m => decide (m.pgn = e.case_data.pgn) &&
                decide (m.source_addr = e.case_data.source_addr))
      (fun m => { m with data := or8 m.data (effectiveData s masks e),
                         has_pattern := m.has_pattern || hasPatternOf s e })
      msgs = none)
    (hlen : ¬ msgs.length < maxm) :
    processEntry env s masks maxm msgs e = msgs := by
  unfold processEntry
  rw [if_pos hc]
  dsimp only
  rw [hm, if_neg hlen]

/-- PASS 2 computes, for each of the first `maxm` contributing identifiers,
the bucket seeded by its first contributor and merged with all its later
contributors. -/
theorem pass2_characterization (env : Env) (s : EngineState)
    (masks : List PatternMaskEntry) (maxm : Nat) :
    ∀ l : List ActiveCase,
      l.foldl (processEntry env s masks maxm) [] =
        ((firstIds env l).take maxm).map (bucketOf env s masks l) := by
  intro l
  induction l using List.reverseRecOn with
  | nil => simp [firstIds]
  | append_singleton l a ih =>
    rw [List.foldl_append]
    simp only [List.foldl_cons, List.foldl_nil]
    rw [ih]
    by_cases hca : contributes env a = true
    · have hB : ∀ j ∈ (firstIds env l).take maxm,
          ((bucketOf env s masks l j).pgn = j.1 ∧
           (bucketOf env s masks l j).source_addr = j.2) := by
        intro j hj
        exact bucketOf_fields env s masks l j
          (contributorsOf_ne_nil env l j (List.mem_of_mem_take hj))
      have hnd : ((firstIds env l).take maxm).Nodup :=
        (nodup_firstIds env l).sublist (List.take_sublist _ _)
      have hmm := mergeFirst_map_buckets
        (fun m => { m with data := or8 m.data (effectiveData s masks a),
                           has_pattern := m.has_pattern || hasPatternOf s a })
        a.case_data.pgn a.case_data.source_addr
        ((firstIds env l).take maxm) (bucketOf env s masks l) hB hnd
      by_cases hidt : (a.case_data.pgn, a.case_data.source_addr) ∈
          (firstIds env l).take maxm
      · rw [if_pos hidt] at hmm
        rw [processEntry_merge env s masks maxm _ _ a hca hmm]
        have hidf : msgId a ∈ firstIds env l := List.mem_of_mem_take hidt
        rw [firstIds_concat, if_pos hca, if_pos hidf]
        apply List.map_congr_left
        intro j hj
        by_cases hji : j = (a.case_data.pgn, a.case_data.source_addr)
        · rw [if_pos hji, hji]
          exact (bucketOf_concat_merge env s masks l a hca
            (contributorsOf_ne_nil env l (msgId a) hidf)).symm
        · rw [if_neg hji]
          exact (bucketOf_concat_other env s masks l a j
            (fun h => hji h.2.symm)).symm
      · rw [if_neg hidt] at hmm
        have hidt' : msgId a ∉ (firstIds env l).take maxm := hidt
        have hmsgslen :
            (((firstIds env l).take maxm).map (bucketOf env s masks l)).length =
              min maxm (firstIds env l).length := by
          rw [List.length_map, List.length_take]
        by_cases hidl : msgId a ∈ firstIds env l
        · have hlen_gt : maxm < (firstIds env l).length := by
            by_contra hle
            push_neg at hle
            rw [List.take_of_length_le hle] at hidt'
            exact hidt' hidl
          have hnotlt : ¬ (((firstIds env l).take maxm).map
              (bucketOf env s masks l)).length < maxm := by
            rw [hmsgslen]; omega
          rw [processEntry_drop env s masks maxm _ a hca hmm hnotlt]
          rw [firstIds_concat, if_pos hca, if_pos hidl]
          apply List.map_congr_left
          intro j hj
          exact (bucketOf_concat_other env s masks l a j
            (fun h => hidt' (h.2.symm ▸ hj))).symm
        · rw [firstIds_concat, if_pos hca, if_neg hidl]
          by_cases hroom : (firstIds env l).length < maxm
          · have hlt : (((firstIds env l).take maxm).map
                (bucketOf env s masks l)).length < maxm := by
              rw [hmsgslen]; omega
            rw [processEntry_create env s masks maxm _ a hca hmm hlt]
            have htk1 : (firstIds env l).take maxm = firstIds env l :=
              List.take_of_length_le (by omega)
            have htk2 : (firstIds env l ++ [msgId a]).take maxm =
                firstIds env l ++ [msgId a] :=
              List.take_of_length_le (by
                rw [List.length_append, List.length_singleton]; omega)
            rw [htk1, htk2, List.map_append]
            congr 1
            · apply List.map_congr_left
              intro j hj
              exact (bucketOf_concat_other env s masks l a j
                (fun h => hidl (h.2.symm ▸ hj))).symm
            · simp only [List.map_cons, List.map_nil]
              rw [bucketOf_concat_new env s masks l a hca
                (contributorsOf_eq_nil env l (msgId a) hidl)]
              rfl
          · have hnotlt : ¬ (((firstIds env l).take maxm).map
                (bucketOf env s masks l)).length < maxm := by
              rw [hmsgslen]; omega
            rw [processEntry_drop env s masks maxm _ a hca hmm hnotlt]
            have htk : (firstIds env l ++ [msgId a]).take maxm =
                (firstIds env l).take maxm :=
              List.take_append_of_le_length (by omega)
            rw [htk]
            apply List.map_congr_left
            intro j hj
            exact (bucketOf_concat_other env s masks l a j
              (fun h => hidl (h.2.symm ▸ (List.mem_of_mem_take hj)))).symm
    · rw [processEntry_skip env s masks maxm _ a hca]
      rw [firstIds_concat, if_neg hca]
      apply List.map_congr_left
      intro j hj
      exact (bucketOf_concat_other env s masks l a j (fun h => hca h.1)).symm

/-! ## Byte-buffer lemmas -/

theorem zeros8_getD (k : Nat) : zeros8.getD k 0 = 0 := by
  unfold zeros8
  match k with
  | 0 | 1 | 2 | 3 | 4 | 5 | 6 | 7 => rfl
  | n + 8 => rfl

theorem length_copy8 (x : List Nat) : (copy8 x).length = 8 := by
  simp [copy8]

theorem copy8_eq_self (x : List Nat) (h : x.length = 8) : copy8 x = x := by
  apply List.ext_getElem
  · rw [length_copy8, h]
  · intro i h1 h2
    rw [length_copy8] at h1
    simp only [copy8, List.getElem_map, List.getElem_range]
    rw [List.getD_eq_getElem x 0 (by omega)]

theorem or8_zeros_left (x : List Nat) : or8 zeros8 x = copy8 x := by
  unfold or8 copy8
  apply List.map_congr_left
  intro k _
  rw [zeros8_getD k]
  exact Nat.zero_or _

theorem length_effectiveData (s : EngineState) (masks : List PatternMaskEntry)
    (e : ActiveCase) : (effectiveData s masks e).length = 8 := by
  simp [effectiveData]

theorem or8_zeros_effective (s : EngineState) (masks : List PatternMaskEntry)
    (e : ActiveCase) :
    or8 zeros8 (effectiveData s masks e) = effectiveData s masks e := by
  rw [or8_zeros_left, copy8_eq_self _ (length_effectiveData s masks e)]

/-! ## Full aggregation without relayed messages (claim C5) -/

theorem inlink_fold_empty (env : Env) (maxm : Nat)
    (h : ∀ k, env.inlink k = none) :
    ∀ (slots : List Nat) (msgs : List AggregatedMessage),
      slots.foldl (inlinkStep env maxm) msgs = msgs := by
  intro slots
  induction slots with
  | nil => intro msgs; rfl
  | cons a t ih =>
    intro msgs
    simp only [List.foldl_cons]
    have hstep : inlinkStep env maxm msgs a = msgs := by
      unfold inlinkStep
      rw [h a]
    rw [hstep, ih]

theorem aggregated_eq_local (env : Env) (s : EngineState) (maxm : Nat)
    (hmax : maxm ≠ 0) (hinlink : ∀ k, env.inlink k = none) :
    EEPROM_GetAggregatedMessages env s maxm =
      ((firstIds env (live s)).take maxm).map
        (bucketOf env s (patternMasks s (live s)) (live s)) := by
  unfold EEPROM_GetAggregatedMessages
  rw [if_neg hmax]
  dsimp only
  rw [inlink_fold_empty env maxm hinlink]
  exact pass2_characterization env s (patternMasks s (live s)) maxm (live s)

/-- C5 scenario: two valid contributing entries sharing identifier
(0xFF02, 0x10); the first (input 0) has no armed pattern, the second
(input 1) does. -/
def c5A : ActiveCase :=
  { input_num := 0, case_num := 0, is_on_case := true,
    needs_removal_after_send := false,
    case_data :=
      { priority := 6, pgn := 0xFF02, source_addr := 0x10,
        data := 1 :: List.replicate 7 0,
        pattern_on_time := 0, pattern_off_time := 0,
        must_be_on := zeros8, must_be_off := zeros8,
        valid := true, can_be_overridden := false } }

def c5B : ActiveCase :=
  { c5A with input_num := 1,
             case_data := { c5A.case_data with data := 2 :: List.replicate 7 0 } }

def c5State : EngineState :=
  { arr := [c5A, c5B] ++ List.replicate 62 default
    count := 2
    timers := fun i =>
      if i = 1 then
        { state := PATTERN_STATE_ON_PHASE, timer := 2, on_time := 2,
          off_time := 2, has_pattern := true }
      else default }

/-- Claim C5 counterexample: the single bucket's "carries a pattern" flag is
true although the first contributing active entry (`c5A`, in iteration
order) has no armed pattern — the flag is the OR over all contributors, not
the first contributor's status. -/
theorem claim_C5_counterexample :
    (EEPROM_GetAggregatedMessages envAllOff c5State 24).map
      (fun m => m.has_pattern) = [true] ∧
    hasPatternOf c5State c5A = false ∧
    (live c5State).head? = some c5A := by
  refine ⟨?_, ?_, ?_⟩ <;> decide

/-- Claim C5 (amended): with no relayed messages and enough bucket capacity,
the aggregation result is one bucket per contributing identifier, in order of
first contribution; each bucket's priority comes from its first contributor
in iteration order, its payload is the (order-independent) OR of all
contributors' effective payloads, and its "carries a pattern" flag is set iff
ANY contributor's input has an armed pattern — not only the first. -/
theorem claim_C5_aggregation_amended (env : Env) (s : EngineState) (maxm : Nat)
    (hmax : maxm ≠ 0) (hinlink : ∀ k, env.inlink k = none)
    (hfit : (firstIds env (live s)).length ≤ maxm) :
    EEPROM_GetAggregatedMessages env s maxm =
      (firstIds env (live s)).map
        (bucketOf env s (patternMasks s (live s)) (live s)) ∧
    (∀ id ∈ firstIds env (live s),
      (bucketOf env s (patternMasks s (live s)) (live s) id).priority =
        (((contributorsOf env (live s) id).head?).map
          (fun e => e.case_data.priority)).getD 0 ∧
      (bucketOf env s (patternMasks s (live s)) (live s) id).data =
        (contributorsOf env (live s) id).foldl
          (fun d e => or8 d (effectiveData s (patternMasks s (live s)) e))
          zeros8 ∧
      (bucketOf env s (patternMasks s (live s)) (live s) id).has_pattern =
        (contributorsOf env (live s) id).any (hasPatternOf s)) := by
  constructor
  · rw [aggregated_eq_local env s maxm hmax hinlink,
      List.take_of_length_le hfit]
  · intro id hid
    rcases hcs : contributorsOf env (live s) id with _ | ⟨c, cs⟩
    · exact absurd hcs (contributorsOf_ne_nil env (live s) id hid)
    · unfold bucketOf
      rw [hcs]
      refine ⟨?_, ?_, ?_⟩
      · rw [(foldl_mergeMsg_fields s (patternMasks s (live s)) cs
          (newMsg s (patternMasks s (live s)) id c)).2.2.2.1]
        rfl
      · rw [foldl_mergeMsg_data]
        simp only [List.foldl_cons]
        rw [or8_zeros_effective]
        rfl
      · rw [foldl_mergeMsg_pattern]
        simp only [List.any_cons]
        rfl

/-- Witness for C5 (amended): the theorem applied to the C5 scenario. -/
theorem claim_C5_witness :
    EEPROM_GetAggregatedMessages envAllOff c5State 24 =
      (firstIds envAllOff (live c5State)).map
        (bucketOf envAllOff c5State (patternMasks c5State (live c5State))
          (live c5State)) :=
  (claim_C5_aggregation_amended envAllOff c5State 24 (by decide)
    (fun _ => rfl) (by decide)).1

/-! ## PASS 1 characterization (claimed-bits masks, claim C1) -/

/-- Identifiers of pattern-owning valid entries in order of first
occurrence. -/
def patIds (s : EngineState) (l : List ActiveCase) : List (Nat × Nat) :=
  l.foldl (fun acc e =>
    if patOwner s e then
      if msgId e ∈ acc then acc else acc ++ [msgId e]
    else acc) []

/-- All pattern-owning valid entries with a given identifier. -/
def patContributorsOf (s : EngineState) (l : List ActiveCase) (id : Nat × Nat) :
    List ActiveCase :=
  l.filter (fun e => patOwner s e && decide (msgId e = id))

/-- The claimed-bits OR of all pattern-owning entries of an identifier (the
specification-side value of PASS 1). -/
def patternOrOf (s : EngineState) (l : List ActiveCase) (id : Nat × Nat) :
    List Nat :=
  (patContributorsOf s l id).foldl (fun d e => or8 d e.case_data.data) zeros8

/-- The mask-table entry an identifier ends up with. -/
def maskOf (s : EngineState) (l : List ActiveCase) (id : Nat × Nat) :
    PatternMaskEntry :=
  match patContributorsOf s l id with
  | [] => default
  | c :: cs =>
    cs.foldl (fun m e => { m with pattern_mask := or8 m.pattern_mask e.case_data.data })
      ⟨id.1, id.2, copy8 c.case_data.data⟩

theorem patIds_concat (s : EngineState) (l : List ActiveCase) (a : ActiveCase) :
    patIds s (l ++ [a]) =
      if patOwner s a then
        if msgId a ∈ patIds s l then patIds s l
        else patIds s l ++ [msgId a]
      else patIds s l := by
  unfold patIds
  rw [List.foldl_append]
  rfl

theorem patContributorsOf_concat (s : EngineState) (l : List ActiveCase)
    (a : ActiveCase) (id : Nat × Nat) :
    patContributorsOf s (l ++ [a]) id =
      patContributorsOf s l id ++
        (if patOwner s a && decide (msgId a = id) then [a] else []) := by
  unfold patContributorsOf
  rw [List.filter_append]
  congr 1
  simp only [List.filter_cons, List.filter_nil]

theorem nodup_patIds (s : EngineState) :
    ∀ l : List ActiveCase, (patIds s l).Nodup := by
  intro l
  induction l using List.reverseRecOn with
  | nil => simp [patIds]
  | append_singleton l a ih =>
    rw [patIds_concat]
    split
    · split
      · exact ih
      · next hmem =>
        rw [List.nodup_append]
        exact ⟨ih, List.nodup_singleton _, by
          intro x hx
          simp only [List.mem_singleton]
          rintro rfl
          exact hmem hx⟩
    · exact ih

theorem mem_patIds (s : EngineState) :
    ∀ (l : List ActiveCase) (id : Nat × Nat),
      id ∈ patIds s l ↔ ∃ e ∈ l, patOwner s e = true ∧ msgId e = id := by
  intro l
  induction l using List.reverseRecOn with
  | nil => simp [patIds]
  | append_singleton l a ih =>
    intro id
    rw [patIds_concat]
    constructor
    · intro h
      split at h
      · next hca =>
        split at h
        · obtain ⟨e, he, h1, h2⟩ := (ih id).mp h
          exact ⟨e, by simp [he], h1, h2⟩
        · rcases List.mem_append.mp h with h1 | h2
          · obtain ⟨e, he, hc, hm⟩ := (ih id).mp h1
            exact ⟨e, by simp [he], hc, hm⟩
          · exact ⟨a, by simp, hca, (List.mem_singleton.mp h2).symm⟩
      · obtain ⟨e, he, h1, h2⟩ := (ih id).mp h
        exact ⟨e, by simp [he], h1, h2⟩
    · rintro ⟨e, he, hc, hm⟩
      rcases List.mem_append.mp he with he' | he''
      · have hin : id ∈ patIds s l := (ih id).mpr ⟨e, he', hc, hm⟩
        split
        · split
          · exact hin
          · exact List.mem_append_left _ hin
        · exact hin
      · have hea : e = a := List.mem_singleton.mp he''
        subst hea
        subst hm
        rw [if_pos hc]
        split
        · next hmem => exact hmem
        · exact List.mem_append_right _ (by simp)

theorem patContributorsOf_ne_nil (s : EngineState) (l : List ActiveCase)
    (id : Nat × Nat) (hid : id ∈ patIds s l) :
    patContributorsOf s l id ≠ [] := by
  obtain ⟨e, he, hc, hm⟩ := (mem_patIds s l id).mp hid
  intro hnil
  have : e ∈ patContributorsOf s l id :=
    List.mem_filter.mpr ⟨he, by simp [hc, hm]⟩
  rw [hnil] at this
  exact List.not_mem_nil _ this

theorem foldl_maskStep_fields (cs : List ActiveCase) :
    ∀ m : PatternMaskEntry,
      ((cs.foldl (fun m e =>
        { m with pattern_mask := or8 m.pattern_mask e.case_data.data }) m).pgn = m.pgn) ∧
      ((cs.foldl (fun m e =>
        { m with pattern_mask := or8 m.pattern_mask e.case_data.data }) m).source_addr =
        m.source_addr) := by
  induction cs with
  | nil => intro m; exact ⟨rfl, rfl⟩
  | cons c t ih =>
    intro m
    simpa using ih { m with pattern_mask := or8 m.pattern_mask c.case_data.data }

theorem foldl_maskStep_mask (cs : List ActiveCase) :
    ∀ m : PatternMaskEntry,
      (cs.foldl (fun m e =>
        { m with pattern_mask := or8 m.pattern_mask e.case_data.data }) m).pattern_mask =
        cs.foldl (fun d e => or8 d e.case_data.data) m.pattern_mask := by
  induction cs with
  | nil => intro m; rfl
  | cons c t ih =>
    intro m
    simpa using ih { m with pattern_mask := or8 m.pattern_mask c.case_data.data }

theorem maskOf_fields (s : EngineState) (l : List ActiveCase) (id : Nat × Nat)
    (h : patContributorsOf s l id ≠ []) :
    (maskOf s l id).pgn = id.1 ∧ (maskOf s l id).source_addr = id.2 := by
  unfold maskOf
  split
  · next hnil => exact absurd hnil h
  · next c cs _ =>
    obtain ⟨h1, h2⟩ := foldl_maskStep_fields cs ⟨id.1, id.2, copy8 c.case_data.data⟩
    exact ⟨h1, h2⟩

theorem maskOf_concat_other (s : EngineState) (l : List ActiveCase)
    (a : ActiveCase) (id : Nat × Nat)
    (h : ¬(patOwner s a = true ∧ msgId a = id)) :
    maskOf s (l ++ [a]) id = maskOf s l id := by
  unfold maskOf
  rw [patContributorsOf_concat]
  have hnil : (if patOwner s a && decide (msgId a = id) then [a] else []) = [] := by
    rw [if_neg]
    simp only [Bool.and_eq_true, decide_eq_true_eq]
    exact h
  rw [hnil, List.append_nil]

theorem maskOf_concat_merge (s : EngineState) (l : List ActiveCase)
    (a : ActiveCase) (hca : patOwner s a = true)
    (hne : patContributorsOf s l (msgId a) ≠ []) :
    maskOf s (l ++ [a]) (msgId a) =
      { maskOf s l (msgId a) with
        pattern_mask := or8 (maskOf s l (msgId a)).pattern_mask a.case_data.data } := by
  unfold maskOf
  rw [patContributorsOf_concat]
  have hcond : (patOwner s a && decide (msgId a = msgId a)) = true := by
    rw [hca]; simp
  rw [if_pos hcond]
  rcases hcs : patContributorsOf s l (msgId a) with _ | ⟨c, cs⟩
  · exact absurd hcs hne
  · simp only [List.cons_append, List.foldl_append, List.foldl_cons, List.foldl_nil]

theorem maskOf_concat_new (s : EngineState) (l : List ActiveCase)
    (a : ActiveCase) (hca : patOwner s a = true)
    (hnil : patContributorsOf s l (msgId a) = []) :
    maskOf s (l ++ [a]) (msgId a) =
      ⟨(msgId a).1, (msgId a).2, copy8 a.case_data.data⟩ := by
  unfold maskOf
  rw [patContributorsOf_concat, hnil]
  have hcond : (patOwner s a && decide (msgId a = msgId a)) = true := by
    rw [hca]; simp
  rw [if_pos hcond]
  rfl

theorem mergeFirst_map_masks (f : PatternMaskEntry → PatternMaskEntry)
    (pg sa : Nat) :
    ∀ (ids : List (Nat × Nat)) (B : Nat × Nat → PatternMaskEntry),
      (∀ j ∈ ids, (B j).pgn = j.1 ∧ (B j).source_addr = j.2) → ids.Nodup →
      mergeFirst (fun m => decide (m.pgn = pg) && decide (m.source_addr = sa))
          f (ids.map B) =
        if (pg, sa) ∈ ids then
          some (ids.map (fun j => if j = (pg, sa) then f (B (pg, sa)) else B j))
        else none := by
  intro ids
  induction ids with
  | nil => intro B _ _; simp [mergeFirst]
  | cons j t ih =>
    intro B hB hnd
    simp only [List.map_cons, mergeFirst]
    have hBj := hB j (by simp)
    by_cases hj : j = (pg, sa)
    · subst hj
      rw [if_pos (by simp [hBj.1, hBj.2])]
      rw [if_pos (by simp)]
      congr 1
      simp only [List.map_cons, if_pos rfl]
      congr 1
      apply List.map_congr_left
      intro x hx
      rw [if_neg]
      rintro rfl
      exact (List.nodup_cons.mp hnd).1 hx
    · have hpj : (decide ((B j).pgn = pg) && decide ((B j).source_addr = sa)) = false := by
        rw [hBj.1, hBj.2]
        by_cases h1 : j.1 = pg
        · by_cases h2 : j.2 = sa
          · exact absurd (Prod.ext h1 h2) hj
          · simp [h2]
        · simp [h1]
      rw [if_neg (by rw [hpj]; exact Bool.false_ne_true)]
      rw [ih B (fun x hx => hB x (by simp [hx])) (List.nodup_cons.mp hnd).2]
      by_cases hid : (pg, sa) ∈ t
      · rw [if_pos hid, if_pos (by simp [hid])]
        simp only [Option.map_some', List.map_cons]
        rw [if_neg hj]
      · rw [if_neg hid, if_neg (by
          simp only [List.mem_cons, not_or]
          exact ⟨fun h => hj h.symm, hid⟩)]
        rfl

theorem pass1Step_skip (s : EngineState) (masks : List PatternMaskEntry)
    (a : ActiveCase) (hc : ¬ patOwner s a = true) :
    pass1Step s masks a = masks := by
  unfold pass1Step
  rw [if_neg hc]

theorem pass1Step_merge (s : EngineState) (masks masks' : List PatternMaskEntry)
    (a : ActiveCase) (hc : patOwner s a = true)
    (hm : mergeFirst
      (fun m => decide (m.pgn = a.case_data.pgn) &&
                decide (m.source_addr = a.case_data.source_addr))
      (fun m => { m with pattern_mask := or8 m.pattern_mask a.case_data.data })
      masks = some masks') :
    pass1Step s masks a = masks' := by
  unfold pass1Step
  rw [if_pos hc]
  rw [hm]

theorem pass1Step_create (s : EngineState) (masks : List PatternMaskEntry)
    (a : ActiveCase) (hc : patOwner s a = true)
    (hm : mergeFirst
      (fun m => decide (m.pgn = a.case_data.pgn) &&
                decide (m.source_addr = a.case_data.source_addr))
      (fun m => { m with pattern_mask := or8 m.pattern_mask a.case_data.data })
      masks = none)
    (hlen : masks.length < MAX_UNIQUE_MESSAGES) :
    pass1Step s masks a =
      masks ++ [⟨a.case_data.pgn, a.case_data.source_addr, copy8 a.case_data.data⟩] := by
  unfold pass1Step
  rw [if_pos hc]
  rw [hm, if_pos hlen]

theorem pass1Step_drop (s : EngineState) (masks : List PatternMaskEntry)
    (a : ActiveCase) (hc : patOwner s a = true)
    (hm : mergeFirst
      (fun m => decide (m.pgn = a.case_data.pgn) &&
                decide (m.source_addr = a.case_data.source_addr))
      (fun m => { m with pattern_mask := or8 m.pattern_mask a.case_data.data })
      masks = none)
    (hlen : ¬ masks.length < MAX_UNIQUE_MESSAGES) :
    pass1Step s masks a = masks := by
  unfold pass1Step
  rw [if_pos hc]
  rw [hm, if_neg hlen]

/-- PASS 1 computes, for each of the first `MAX_UNIQUE_MESSAGES`
pattern-owning identifiers, its claimed-bits mask entry. -/
theorem pass1_characterization (s : EngineState) :
    ∀ l : List ActiveCase,
      patternMasks s l =
        ((patIds s l).take MAX_UNIQUE_MESSAGES).map (maskOf s l) := by
  intro l
  induction l using List.reverseRecOn with
  | nil => simp [patternMasks, patIds]
  | append_singleton l a ih =>
    unfold patternMasks
    rw [List.foldl_append]
    simp only [List.foldl_cons, List.foldl_nil]
    have ihm : List.foldl (pass1Step s) [] l =
        ((patIds s l).take MAX_UNIQUE_MESSAGES).map (maskOf s l) := ih
    rw [ihm]
    by_cases hca : patOwner s a = true
    · have hB : ∀ j ∈ (patIds s l).take MAX_UNIQUE_MESSAGES,
          ((maskOf s l j).pgn = j.1 ∧ (maskOf s l j).source_addr = j.2) := by
        intro j hj
        exact maskOf_fields s l j
          (patContributorsOf_ne_nil s l j (List.mem_of_mem_take hj))
      have hnd : ((patIds s l).take MAX_UNIQUE_MESSAGES).Nodup :=
        (nodup_patIds s l).sublist (List.take_sublist _ _)
      have hmm := mergeFirst_map_masks
        (fun m => { m with pattern_mask := or8 m.pattern_mask a.case_data.data })
        a.case_data.pgn a.case_data.source_addr
        ((patIds s l).take MAX_UNIQUE_MESSAGES) (maskOf s l) hB hnd
      by_cases hidt : (a.case_data.pgn, a.case_data.source_addr) ∈
          (patIds s l).take MAX_UNIQUE_MESSAGES
      · rw [if_pos hidt] at hmm
        rw [pass1Step_merge s _ _ a hca hmm]
        have hidf : msgId a ∈ patIds s l := List.mem_of_mem_take hidt
        rw [patIds_concat, if_pos hca, if_pos hidf]
        apply List.map_congr_left
        intro j hj
        by_cases hji : j = (a.case_data.pgn, a.case_data.source_addr)
        · rw [if_pos hji, hji]
          exact (maskOf_concat_merge s l a hca
            (patContributorsOf_ne_nil s l (msgId a) hidf)).symm
        · rw [if_neg hji]
          exact (maskOf_concat_other s l a j (fun h => hji h.2.symm)).symm
      · rw [if_neg hidt] at hmm
        have hidt' : msgId a ∉ (patIds s l).take MAX_UNIQUE_MESSAGES := hidt
        have hmaskslen :
            (((patIds s l).take MAX_UNIQUE_MESSAGES).map (maskOf s l)).length =
              min MAX_UNIQUE_MESSAGES (patIds s l).length := by
          rw [List.length_map, List.length_take]
        by_cases hidl : msgId a ∈ patIds s l
        · have hlen_gt : MAX_UNIQUE_MESSAGES < (patIds s l).length := by
            by_contra hle
            push_neg at hle
            rw [List.take_of_length_le hle] at hidt'
            exact hidt' hidl
          have hnotlt : ¬ (((patIds s l).take MAX_UNIQUE_MESSAGES).map
              (maskOf s l)).length < MAX_UNIQUE_MESSAGES := by
            rw [hmaskslen]; omega
          rw [pass1Step_drop s _ a hca hmm hnotlt]
          rw [patIds_concat, if_pos hca, if_pos hidl]
          apply List.map_congr_left
          intro j hj
          exact (maskOf_concat_other s l a j
            (fun h => hidt' (h.2.symm ▸ hj))).symm
        · rw [patIds_concat, if_pos hca, if_neg hidl]
          by_cases hroom : (patIds s l).length < MAX_UNIQUE_MESSAGES
          · have hlt : (((patIds s l).take MAX_UNIQUE_MESSAGES).map
                (maskOf s l)).length < MAX_UNIQUE_MESSAGES := by
              rw [hmaskslen]; omega
            rw [pass1Step_create s _ a hca hmm hlt]
            have htk1 : (patIds s l).take MAX_UNIQUE_MESSAGES = patIds s l :=
              List.take_of_length_le (by omega)
            have htk2 : (patIds s l ++ [msgId a]).take MAX_UNIQUE_MESSAGES =
                patIds s l ++ [msgId a] :=
              List.take_of_length_le (by
                rw [List.length_append, List.length_singleton]; omega)
            rw [htk1, htk2, List.map_append]
            congr 1
            · apply List.map_congr_left
              intro j hj
              exact (maskOf_concat_other s l a j
                (fun h => hidl (h.2.symm ▸ hj))).symm
            · simp only [List.map_cons, List.map_nil]
              rw [maskOf_concat_new s l a hca (by
                rcases hcs : patContributorsOf s l (msgId a) with _ | ⟨c, cs⟩
                · rfl
                · exfalso
                  have hc : c ∈ patContributorsOf s l (msgId a) := by rw [hcs]; simp
                  obtain ⟨hcl, hcp⟩ := List.mem_filter.mp hc
                  simp only [Bool.and_eq_true, decide_eq_true_eq] at hcp
                  exact hidl ((mem_patIds s l (msgId a)).mpr ⟨c, hcl, hcp.1, hcp.2⟩))]
              rfl
          · have hnotlt : ¬ (((patIds s l).take MAX_UNIQUE_MESSAGES).map
                (maskOf s l)).length < MAX_UNIQUE_MESSAGES := by
              rw [hmaskslen]; omega
            rw [pass1Step_drop s _ a hca hmm hnotlt]
            have htk : (patIds s l ++ [msgId a]).take MAX_UNIQUE_MESSAGES =
                (patIds s l).take MAX_UNIQUE_MESSAGES :=
              List.take_append_of_le_length (by omega)
            rw [htk]
            apply List.map_congr_left
            intro j hj
            exact (maskOf_concat_other s l a j
              (fun h => hidl (h.2.symm ▸ (List.mem_of_mem_take hj)))).symm
    · rw [pass1Step_skip s _ a hca]
      rw [patIds_concat, if_neg hca]
      apply List.map_congr_left
      intro j hj
      exact (maskOf_concat_other s l a j (fun h => hca h.1)).symm

/-! ## Override suppression (claim C1) -/

theorem getD_or8 (a b : List Nat) (k : Nat) (hk : k < 8) :
    (or8 a b).getD k 0 = a.getD k 0 ||| b.getD k 0 := by
  unfold or8
  rw [List.getD_eq_getElem _ 0 (by simp [hk])]
  simp

theorem bandNot8_eq_zero (a b : Nat)
    (h : ∀ i, i < 8 → a.testBit i = true → b.testBit i = true) :
    bandNot8 a b = 0 := by
  unfold bandNot8
  apply Nat.eq_of_testBit_eq
  intro i
  rw [Nat.zero_testBit, Nat.testBit_and, Nat.testBit_xor]
  by_cases hi : i < 8
  · have hff : (0xFF : Nat).testBit i = true := by
      have : (0xFF : Nat) = 2 ^ 8 - 1 := by norm_num
      rw [this, Nat.testBit_two_pow_sub_one]
      simpa using hi
    have hb : (b &&& 0xFF).testBit i = b.testBit i := by
      rw [Nat.testBit_and, hff, Bool.and_true]
    rw [hff, hb]
    by_cases ha : a.testBit i = true
    · rw [h i hi ha]
      simp
    · simp [Bool.not_eq_true] at ha
      rw [ha]
      simp
  · have hff : (0xFF : Nat).testBit i = false := by
      apply Nat.testBit_lt_two_pow
      calc (0xFF : Nat) < 2 ^ 8 := by norm_num
        _ ≤ 2 ^ i := Nat.pow_le_pow_right (by norm_num) (by omega)
    have hb : (b &&& 0xFF).testBit i = false := by
      apply Nat.testBit_lt_two_pow
      calc b &&& 0xFF ≤ 0xFF := Nat.and_le_right
        _ < 2 ^ 8 := by norm_num
        _ ≤ 2 ^ i := Nat.pow_le_pow_right (by norm_num) (by omega)
    rw [hff, hb]
    simp

theorem testBit_foldl_or8_init (k i : Nat) (hk : k < 8) :
    ∀ (cs : List ActiveCase) (d0 : List Nat),
      (d0.getD k 0).testBit i = true →
      (((cs.foldl (fun d e => or8 d e.case_data.data) d0)).getD k 0).testBit i = true := by
  intro cs
  induction cs with
  | nil => intro d0 h; exact h
  | cons c t ih =>
    intro d0 h
    simp only [List.foldl_cons]
    apply ih
    rw [getD_or8 _ _ k hk, Nat.testBit_or, h]
    simp

theorem testBit_foldl_or8_mem (k i : Nat) (hk : k < 8) :
    ∀ (cs : List ActiveCase) (d0 : List Nat) (e : ActiveCase), e ∈ cs →
      (e.case_data.data.getD k 0).testBit i = true →
      (((cs.foldl (fun d e => or8 d e.case_data.data) d0)).getD k 0).testBit i = true := by
  intro cs
  induction cs with
  | nil => intro d0 e he; exact absurd he (List.not_mem_nil e)
  | cons c t ih =>
    intro d0 e he hbit
    simp only [List.foldl_cons]
    rcases List.mem_cons.mp he with rfl | ht
    · apply testBit_foldl_or8_init k i hk
      rw [getD_or8 _ _ k hk, Nat.testBit_or, hbit]
      simp
    · exact ih (or8 d0 c.case_data.data) e ht hbit

theorem testBit_patternOrOf (s : EngineState) (l : List ActiveCase)
    (id : Nat × Nat) (e : ActiveCase) (he : e ∈ patContributorsOf s l id)
    (k i : Nat) (hk : k < 8)
    (hbit : (e.case_data.data.getD k 0).testBit i = true) :
    ((patternOrOf s l id).getD k 0).testBit i = true :=
  testBit_foldl_or8_mem k i hk (patContributorsOf s l id) zeros8 e he hbit

theorem find?_map_masks (pg sa : Nat) :
    ∀ (ids : List (Nat × Nat)) (B : Nat × Nat → PatternMaskEntry),
      (∀ j ∈ ids, (B j).pgn = j.1 ∧ (B j).source_addr = j.2) →
      (ids.map B).find?
          (fun m => decide (m.pgn = pg) && decide (m.source_addr = sa)) =
        if (pg, sa) ∈ ids then some (B (pg, sa)) else none := by
  intro ids
  induction ids with
  | nil => intro B _; simp
  | cons j t ih =>
    intro B hB
    have hBj := hB j (by simp)
    simp only [List.map_cons]
    by_cases hj : j = (pg, sa)
    · subst hj
      rw [List.find?_cons_of_pos _ (by simp [hBj.1, hBj.2])]
      rw [if_pos (by simp)]
    · have hpj : (decide ((B j).pgn = pg) && decide ((B j).source_addr = sa)) = false := by
        rw [hBj.1, hBj.2]
        by_cases h1 : j.1 = pg
        · by_cases h2 : j.2 = sa
          · exact absurd (by
              obtain ⟨ja, jb⟩ := j
              simp only [Prod.mk.injEq]
              exact ⟨h1, h2⟩) hj
          · simp [h2]
        · simp [h1]
      rw [List.find?_cons_of_neg _ (by simp [hpj])]
      rw [ih B (fun x hx => hB x (by simp [hx]))]
      by_cases hid : (pg, sa) ∈ t
      · rw [if_pos hid, if_pos (by simp [hid])]
      · rw [if_neg hid, if_neg (by
          simp only [List.mem_cons, not_or]
          exact ⟨fun h => hj h.symm, hid⟩)]

theorem length_foldl_or8 :
    ∀ (cs : List ActiveCase) (d0 : List Nat), d0.length = 8 →
      (cs.foldl (fun d e => or8 d e.case_data.data) d0).length = 8 := by
  intro cs
  induction cs with
  | nil => intro d0 h; exact h
  | cons c t ih =>
    intro d0 h
    simp only [List.foldl_cons]
    exact ih _ (by simp [or8])

theorem length_patternOrOf (s : EngineState) (l : List ActiveCase)
    (id : Nat × Nat) : (patternOrOf s l id).length = 8 :=
  length_foldl_or8 _ zeros8 (by simp [zeros8])

theorem maskOf_mask_eq_patternOr (s : EngineState) (l : List ActiveCase)
    (id : Nat × Nat) (h : patContributorsOf s l id ≠ []) :
    (maskOf s l id).pattern_mask = patternOrOf s l id := by
  obtain ⟨c, cs, hcs⟩ : ∃ c cs, patContributorsOf s l id = c :: cs := by
    rcases hl : patContributorsOf s l id with _ | ⟨c, cs⟩
    · exact absurd hl h
    · exact ⟨c, cs, rfl⟩
  unfold maskOf patternOrOf
  rw [hcs]
  dsimp only
  rw [foldl_maskStep_mask]
  simp only [List.foldl_cons]
  rw [or8_zeros_left]

theorem patternMaskFor_eq_patternOr (s : EngineState) (l : List ActiveCase)
    (pg sa : Nat) (hmem : (pg, sa) ∈ patIds s l)
    (hfit : (patIds s l).length ≤ MAX_UNIQUE_MESSAGES) :
    patternMaskFor (patternMasks s l) pg sa = patternOrOf s l (pg, sa) := by
  unfold patternMaskFor
  rw [pass1_characterization s l, List.take_of_length_le hfit,
    find?_map_masks pg sa (patIds s l) (maskOf s l)
      (fun j hj => maskOf_fields s l j (patContributorsOf_ne_nil s l j hj)),
    if_pos hmem]
  dsimp only
  rw [maskOf_mask_eq_patternOr s l (pg, sa)
    (patContributorsOf_ne_nil s l (pg, sa) hmem)]
  exact copy8_eq_self _ (length_patternOrOf s l (pg, sa))

/-- Claim C1 (amended): for a valid, overridable active entry whose message
identifier also has at least one valid entry owned by an input with an armed
pattern timer, and with the distinct pattern-owning identifiers fitting the
24-entry mask table, the entry's effective payload in aggregation equals its
raw payload with ALL bits claimed by pattern entries of that identifier
removed (the bytewise `data AND NOT mask` of the OR of the pattern entries'
payloads) — independent of the pattern timer's current phase; in particular,
if every payload bit of the entry is claimed, the effective payload is
all-zero. -/
theorem claim_C1_override_suppression_amended (s : EngineState) (e : ActiveCase)
    (he : e ∈ live s)
    (hvalid : e.case_data.valid = true)
    (hover : e.case_data.can_be_overridden = true)
    (hpat : ∃ e2 ∈ live s, patOwner s e2 = true ∧ msgId e2 = msgId e)
    (hfit : (patIds s (live s)).length ≤ MAX_UNIQUE_MESSAGES) :
    effectiveData s (patternMasks s (live s)) e =
      (List.range 8).map (fun k =>
        bandNot8 (e.case_data.data.getD k 0)
          ((patternOrOf s (live s) (msgId e)).getD k 0)) ∧
    ((∀ k, k < 8 →
        e.case_data.data.getD k 0 &&&
            (patternOrOf s (live s) (msgId e)).getD k 0 =
          e.case_data.data.getD k 0) →
      effectiveData s (patternMasks s (live s)) e = zeros8) := by
  obtain ⟨e2, he2, hpo2, hid2⟩ := hpat
  have hmem : msgId e ∈ patIds s (live s) :=
    (mem_patIds s (live s) (msgId e)).mpr ⟨e2, he2, hpo2, hid2⟩
  have hmem' : (e.case_data.pgn, e.case_data.source_addr) ∈ patIds s (live s) :=
    hmem
  have hmask := patternMaskFor_eq_patternOr s (live s)
    e.case_data.pgn e.case_data.source_addr hmem' hfit
  have hmain : effectiveData s (patternMasks s (live s)) e =
      (List.range 8).map (fun k =>
        bandNot8 (e.case_data.data.getD k 0)
          ((patternOrOf s (live s) (msgId e)).getD k 0)) := by
    unfold effectiveData
    dsimp only
    apply List.map_congr_left
    intro k hk
    by_cases hip :
        (hasPatternOf s e && !EEPROM_Pattern_IsInOnPhase s e.input_num) = true
    · rw [if_pos hip]
      have hpe : patOwner s e = true := by
        unfold patOwner
        rw [hvalid, Bool.true_and]
        have h12 := hip
        simp only [Bool.and_eq_true] at h12
        exact h12.1
      have hcontrib : e ∈ patContributorsOf s (live s) (msgId e) := by
        unfold patContributorsOf
        rw [List.mem_filter]
        exact ⟨he, by simp [hpe]⟩
      symm
      apply bandNot8_eq_zero
      intro i hi hbi
      exact testBit_patternOrOf s (live s) (msgId e) e hcontrib k i
        (List.mem_range.mp hk) hbi
    · rw [if_neg hip, hover, if_pos rfl, if_pos rfl, hmask]
      rfl
  refine ⟨hmain, fun hcont => ?_⟩
  rw [hmain]
  have hz : ∀ k ∈ List.range 8,
      bandNot8 (e.case_data.data.getD k 0)
        ((patternOrOf s (live s) (msgId e)).getD k 0) = 0 := by
    intro k hk
    apply bandNot8_eq_zero
    intro i hi hbi
    have hand : (e.case_data.data.getD k 0 &&&
        (patternOrOf s (live s) (msgId e)).getD k 0).testBit i = true := by
      rw [hcont k (List.mem_range.mp hk)]
      exact hbi
    rw [Nat.testBit_and] at hand
    simp only [Bool.and_eq_true] at hand
    exact hand.2
  rw [List.map_congr_left hz]
  decide

/-- A pattern-owning entry of input 1 with identifier `(0x100 + i, 0x10)` and
payload byte 0 = `0b11000000`. -/
def c1pat (i : Nat) : ActiveCase :=
  { input_num := 1, case_num := 0, is_on_case := true,
    needs_removal_after_send := false,
    case_data :=
      { priority := 3, pgn := 0x100 + i, source_addr := 0x10,
        data := 0xC0 :: List.replicate 7 0,
        pattern_on_time := 2, pattern_off_time := 2,
        must_be_on := zeros8, must_be_off := zeros8,
        valid := true, can_be_overridden := false } }

/-- An overridable entry of input 0 sharing the 25th pattern identifier
`(0x118, 0x10)`, with the same payload `0b11000000`. -/
def c1e : ActiveCase :=
  { input_num := 0, case_num := 0, is_on_case := true,
    needs_removal_after_send := false,
    case_data :=
      { priority := 6, pgn := 0x100 + 24, source_addr := 0x10,
        data := 0xC0 :: List.replicate 7 0,
        pattern_on_time := 0, pattern_off_time := 0,
        must_be_on := zeros8, must_be_off := zeros8,
        valid := true, can_be_overridden := true } }

/-- 25 distinct pattern-owning identifiers (all owned by input 1, whose timer
is armed) followed by the overridable entry on the 25th identifier. -/
def c1State : EngineState :=
  { arr := (List.range 25).map c1pat ++ [c1e] ++ List.replicate 38 default
    count := 26
    timers := fun i =>
      if i = 1 then
        { state := PATTERN_STATE_ON_PHASE, timer := 2, on_time := 2,
          off_time := 2, has_pattern := true }
      else default }

/-- Claim C1 counterexample: the overridable entry `c1e` satisfies every
premise of the claim — it is overridable and the pattern-owning live entry
`c1pat 24` shares its identifier with payload `0b11000000` and an armed
timer — yet its effective payload is its RAW payload `0b11000000`, not the
claimed all-zero `payload AND NOT (OR of pattern payloads)`: the identifier
is the 25th distinct pattern identifier, so it is dropped from the 24-entry
claimed-bits mask table and no suppression happens. -/
theorem claim_C1_counterexample :
    c1e.case_data.can_be_overridden = true ∧
    patOwner c1State (c1pat 24) = true ∧
    msgId (c1pat 24) = msgId c1e ∧
    c1pat 24 ∈ live c1State ∧ c1e ∈ live c1State ∧
    (patIds c1State (live c1State)).length = 25 ∧
    effectiveData c1State (patternMasks c1State (live c1State)) c1e =
      0xC0 :: List.replicate 7 0 ∧
    (List.range 8).map (fun k =>
      bandNot8 (c1e.case_data.data.getD k 0)
        ((patternOrOf c1State (live c1State) (msgId c1e)).getD k 0)) =
      zeros8 := by
  refine ⟨?_, ?_, ?_, ?_, ?_, ?_, ?_, ?_⟩ <;> decide

/-- Witness state: one armed pattern entry and one overridable entry sharing
identifier `(0x100, 0x10)`; the single pattern identifier fits the table. -/
def c1we : ActiveCase :=
  { c1e with case_data := { c1e.case_data with pgn := 0x100 } }

def c1wState : EngineState :=
  { arr := [c1pat 0, c1we] ++ List.replicate 62 default
    count := 2
    timers := fun i =>
      if i = 1 then
        { state := PATTERN_STATE_ON_PHASE, timer := 2, on_time := 2,
          off_time := 2, has_pattern := true }
      else default }

theorem claim_C1_witness :
    c1we ∈ live c1wState ∧
    (effectiveData c1wState (patternMasks c1wState (live c1wState)) c1we =
      (List.range 8).map (fun k =>
        bandNot8 (c1we.case_data.data.getD k 0)
          ((patternOrOf c1wState (live c1wState) (msgId c1we)).getD k 0)) ∧
    ((∀ k, k < 8 →
        c1we.case_data.data.getD k 0 &&&
            (patternOrOf c1wState (live c1wState) (msgId c1we)).getD k 0 =
          c1we.case_data.data.getD k 0) →
      effectiveData c1wState (patternMasks c1wState (live c1wState)) c1we =
        zeros8)) :=
  ⟨by decide,
   claim_C1_override_suppression_amended c1wState c1we (by decide) (by decide)
     (by decide) ⟨c1pat 0, by decide, by decide, by decide⟩ (by decide)⟩

/-! ## Track-ignition clearing entries in aggregation (claim C10) -/

theorem hasPatternOf_high (s : EngineState) (e : ActiveCase)
    (h : TOTAL_INPUTS ≤ e.input_num) : hasPatternOf s e = false := by
  unfold hasPatternOf
  rw [decide_eq_false (Nat.not_lt.mpr h), Bool.false_and]

theorem zeros8_getElemD (k : Nat) : zeros8[k]?.getD 0 = 0 := by
  rw [← List.getD_eq_getElem?_getD]
  exact zeros8_getD k

theorem check_zero_conditions (env : Env) :
    CheckInputConditions env zeros8 zeros8 = true := by
  unfold CheckInputConditions
  simp [zeros8_getElemD]

theorem effectiveData_zero (s : EngineState) (masks : List PatternMaskEntry)
    (e : ActiveCase) (hinp : TOTAL_INPUTS ≤ e.input_num)
    (hover : e.case_data.can_be_overridden = false)
    (hdata : e.case_data.data = zeros8) :
    effectiveData s masks e = zeros8 := by
  unfold effectiveData
  simp only [hasPatternOf_high s e hinp, Bool.false_and, Bool.false_eq_true,
    if_false, hover, hdata, zeros8_getD]
  decide

theorem or8_zeros_right (x : List Nat) (h : x.length = 8) :
    or8 x zeros8 = x := by
  have h1 : or8 x zeros8 = copy8 x := by
    unfold or8 copy8
    apply List.map_congr_left
    intro k _
    rw [zeros8_getD, Nat.or_zero]
  rw [h1, copy8_eq_self x h]

/-- When the merge function fixes every list element, the find-and-update
loop returns the list unchanged (when a match exists) or reports no match. -/
theorem mergeFirst_id {α : Type} (p : α → Bool) (f : α → α) :
    ∀ (l : List α), (∀ x ∈ l, f x = x) →
      mergeFirst p f l = if l.any p then some l else none := by
  intro l
  induction l with
  | nil => intro _; simp [mergeFirst]
  | cons x xs ih =>
    intro hf
    simp only [mergeFirst]
    by_cases hx : p x = true
    · rw [if_pos hx, hf x (by simp), if_pos (by simp [List.any_cons, hx])]
    · rw [if_neg hx, ih (fun y hy => hf y (by simp [hy]))]
      by_cases ha : xs.any p = true
      · rw [if_pos ha, if_pos (by simp [List.any_cons, ha])]
        rfl
      · rw [if_neg ha, if_neg (by
          simp only [List.any_cons, Bool.or_eq_true, not_or]
          exact ⟨hx, ha⟩)]
        rfl

/-- Folding guarded appends of entries satisfying `P` extends the live list
by entries satisfying `P` (some may be dropped at capacity). -/
theorem foldl_appendCase_props (P : ActiveCase → Prop) :
    ∀ (l : List ActiveCase), (∀ x ∈ l, P x) → ∀ (s : EngineState), WF s →
      ∃ ext, live (l.foldl appendCase s) = live s ++ ext ∧
        (∀ x ∈ ext, P x) ∧ WF (l.foldl appendCase s) := by
  intro l
  induction l with
  | nil => intro _ s h; exact ⟨[], by simp, by simp, h⟩
  | cons a t ih =>
    intro hP s h
    obtain ⟨e1, h1, h2, h3⟩ := appendCase_extends s a h
    obtain ⟨e2, g1, g2, g3⟩ := ih (fun x hx => hP x (by simp [hx]))
      (appendCase s a) h3
    refine ⟨e1 ++ e2, ?_, ?_, g3⟩
    · simp only [List.foldl_cons]
      rw [g1, h1, List.append_assoc]
    · intro x hx
      rcases List.mem_append.mp hx with hx1 | hx2
      · rw [h2 x hx1]
        exact hP a (by simp)
      · exact g2 x hx2

/-- Claim C10: with ignition off, `EEPROM_UpdateIgnitionTrackedCases` removes
the tracked entries and appends only synthetic clearing entries carrying the
sentinel owning input `0xFF`, an all-zero payload and all-zero prerequisite
bitmaps, marked one-shot and valid (first conjunct); aggregation never treats
an entry owned by an input `≥ TOTAL_INPUTS` as pattern-gated (second), the
all-zero prerequisite bitmaps pass `CheckInputConditions` in every
environment (third), such an entry's effective payload is all-zero (fourth),
so PASS 2 always processes it: it leaves an existing bucket of its identifier
unchanged (ORing zeros) or creates a zero-payload bucket when there is room
(fifth); the entry survives until `EEPROM_RemoveMarkedCases` prunes the
one-shot entries (sixth). -/
theorem claim_C10_tracked_clearing (env : Env) (s : EngineState) (hWF : WF s) :
    (∃ cl, live (EEPROM_UpdateIgnitionTrackedCases env false s) =
        (live s).filter
          (fun e => !EEPROM_IsTrackIgnitionCase env e.input_num e.case_num) ++
          cl ∧
      ∀ c ∈ cl, c.input_num = 0xFF ∧ c.case_data.data = zeros8 ∧
        c.case_data.must_be_on = zeros8 ∧ c.case_data.must_be_off = zeros8 ∧
        c.needs_removal_after_send = true ∧ c.case_data.valid = true ∧
        c.case_data.can_be_overridden = false) ∧
    (∀ (s2 : EngineState) (c : ActiveCase), TOTAL_INPUTS ≤ c.input_num →
      hasPatternOf s2 c = false) ∧
    (∀ (env2 : Env), CheckInputConditions env2 zeros8 zeros8 = true) ∧
    (∀ (s2 : EngineState) (masks : List PatternMaskEntry) (c : ActiveCase),
      TOTAL_INPUTS ≤ c.input_num → c.case_data.can_be_overridden = false →
      c.case_data.data = zeros8 → effectiveData s2 masks c = zeros8) ∧
    (∀ (env2 : Env) (s2 : EngineState) (masks : List PatternMaskEntry)
        (maxm : Nat) (msgs : List AggregatedMessage) (c : ActiveCase),
      TOTAL_INPUTS ≤ c.input_num → c.case_data.valid = true →
      c.case_data.can_be_overridden = false → c.case_data.data = zeros8 →
      c.case_data.must_be_on = zeros8 → c.case_data.must_be_off = zeros8 →
      (∀ m ∈ msgs, m.data.length = 8) →
      processEntry env2 s2 masks maxm msgs c =
        if msgs.any (fun m => decide (m.pgn = c.case_data.pgn) &&
            decide (m.source_addr = c.case_data.source_addr)) = true then msgs
        else if msgs.length < maxm then
          msgs ++ [{ priority := c.case_data.priority
                     pgn := c.case_data.pgn
                     source_addr := c.case_data.source_addr
                     data := zeros8
                     valid := true
                     has_pattern := false
                     data_changed := false }]
        else msgs) ∧
    (∀ (s2 : EngineState),
      live (EEPROM_RemoveMarkedCases s2) =
        (live s2).filter (fun e => !e.needs_removal_after_send)) := by
  refine ⟨?_, hasPatternOf_high, check_zero_conditions, effectiveData_zero, ?_, ?_⟩
  · unfold EEPROM_UpdateIgnitionTrackedCases
    dsimp only
    rw [if_neg Bool.false_ne_true]
    obtain ⟨cl, hl, hm, _⟩ := foldl_appendCase_props
      (fun x => x.input_num = 0xFF ∧ x.case_data.data = zeros8 ∧
        x.case_data.must_be_on = zeros8 ∧ x.case_data.must_be_off = zeros8 ∧
        x.needs_removal_after_send = true ∧ x.case_data.valid = true ∧
        x.case_data.can_be_overridden = false)
      ((trackedPairs env).enum.map (fun ic => mkClearingEntry 0xFF ic.1 ic.2))
      (by
        intro x hx
        obtain ⟨ic, _, rfl⟩ := List.mem_map.mp hx
        exact ⟨rfl, rfl, rfl, rfl, rfl, rfl, rfl⟩)
      (compactRemove
        (fun e => !EEPROM_IsTrackIgnitionCase env e.input_num e.case_num) s)
      (WF_compactRemove _ s hWF)
    refine ⟨cl, ?_, hm⟩
    rw [hl, live_compactRemove]
  · intro env2 s2 masks maxm msgs c hinp hvalid hover hdata hon hoff hlen8
    have hc : contributes env2 c = true := by
      unfold contributes
      rw [hvalid, hon, hoff, check_zero_conditions env2, Bool.true_and]
    have hp := hasPatternOf_high s2 c hinp
    have heff := effectiveData_zero s2 masks c hinp hover hdata
    have hfid : ∀ m ∈ msgs,
        ({ m with data := or8 m.data (effectiveData s2 masks c),
                  has_pattern := m.has_pattern || hasPatternOf s2 c } :
          AggregatedMessage) = m := by
      intro m hm
      rw [heff, or8_zeros_right m.data (hlen8 m hm), hp, Bool.or_false]
    have hmf := mergeFirst_id
      (fun m => decide (m.pgn = c.case_data.pgn) &&
                decide (m.source_addr = c.case_data.source_addr))
      (fun m => { m with data := or8 m.data (effectiveData s2 masks c),
                         has_pattern := m.has_pattern || hasPatternOf s2 c })
      msgs hfid
    by_cases hany : msgs.any (fun m => decide (m.pgn = c.case_data.pgn) &&
        decide (m.source_addr = c.case_data.source_addr)) = true
    · rw [if_pos hany] at hmf
      rw [processEntry_merge env2 s2 masks maxm msgs msgs c hc hmf, if_pos hany]
    · rw [if_neg hany] at hmf
      by_cases hroom : msgs.length < maxm
      · rw [processEntry_create env2 s2 masks maxm msgs c hc hmf hroom,
          if_neg hany, if_pos hroom, heff, hp]
      · rw [processEntry_drop env2 s2 masks maxm msgs c hc hmf hroom,
          if_neg hany, if_neg hroom]
  · intro s2
    exact live_compactRemove _ s2

/-- Witness for C10 at the blank-image environment and the empty list. -/
theorem claim_C10_witness :
    (∃ cl, live (EEPROM_UpdateIgnitionTrackedCases envAllOff false emptyState) =
        (live emptyState).filter
          (fun e => !EEPROM_IsTrackIgnitionCase envAllOff e.input_num e.case_num) ++
          cl ∧
      ∀ c ∈ cl, c.input_num = 0xFF ∧ c.case_data.data = zeros8 ∧
        c.case_data.must_be_on = zeros8 ∧ c.case_data.must_be_off = zeros8 ∧
        c.needs_removal_after_send = true ∧ c.case_data.valid = true ∧
        c.case_data.can_be_overridden = false) ∧
    (∀ (s2 : EngineState) (c : ActiveCase), TOTAL_INPUTS ≤ c.input_num →
      hasPatternOf s2 c = false) ∧
    (∀ (env2 : Env), CheckInputConditions env2 zeros8 zeros8 = true) ∧
    (∀ (s2 : EngineState) (masks : List PatternMaskEntry) (c : ActiveCase),
      TOTAL_INPUTS ≤ c.input_num → c.case_data.can_be_overridden = false →
      c.case_data.data = zeros8 → effectiveData s2 masks c = zeros8) ∧
    (∀ (env2 : Env) (s2 : EngineState) (masks : List PatternMaskEntry)
        (maxm : Nat) (msgs : List AggregatedMessage) (c : ActiveCase),
      TOTAL_INPUTS ≤ c.input_num → c.case_data.valid = true →
      c.case_data.can_be_overridden = false → c.case_data.data = zeros8 →
      c.case_data.must_be_on = zeros8 → c.case_data.must_be_off = zeros8 →
      (∀ m ∈ msgs, m.data.length = 8) →
      processEntry env2 s2 masks maxm msgs c =
        if msgs.any (fun m => decide (m.pgn = c.case_data.pgn) &&
            decide (m.source_addr = c.case_data.source_addr)) = true then msgs
        else if msgs.length < maxm then
          msgs ++ [{ priority := c.case_data.priority
                     pgn := c.case_data.pgn
                     source_addr := c.case_data.source_addr
                     data := zeros8
                     valid := true
                     has_pattern := false
                     data_changed := false }]
        else msgs) ∧
    (∀ (s2 : EngineState),
      live (EEPROM_RemoveMarkedCases s2) =
        (live s2).filter (fun e => !e.needs_removal_after_send)) :=
  claim_C10_tracked_clearing envAllOff emptyState ⟨by decide, by decide⟩

end Mastercell
